import Mathlib

/-!
Shallow embedding of the transcoding core of the vertex-ai-benchmarker
feature-store import/export tool (files `cli/lib/data_importer.py`,
`cli/lib/data_exporter.py`, `cli/lib/featurestore_data_classes.py`).

Python dicts preserve insertion order, so every mapping of the data model is
embedded as an association list `List (String × α)`: lookup returns the first
(and, for states the code builds, only) binding of a key, an update replaces a
binding in place, and a fresh binding is appended at the end.
-/

namespace FsTool

/-- The `google.cloud.aiplatform_v1` `Feature.ValueType` proto enum, as used by
`data_importer.py` and `data_exporter.py`. -/
inductive ValueType where
  | VALUE_TYPE_UNSPECIFIED
  | BOOL
  | BOOL_ARRAY
  | DOUBLE
  | DOUBLE_ARRAY
  | INT64
  | INT64_ARRAY
  | STRING
  | STRING_ARRAY
  | BYTES
  deriving DecidableEq

/-- `.name` of a proto enum member: the canonical (uppercase) member name. -/
def ValueType.name : ValueType → String
  | .VALUE_TYPE_UNSPECIFIED => "VALUE_TYPE_UNSPECIFIED"
  | .BOOL => "BOOL"
  | .BOOL_ARRAY => "BOOL_ARRAY"
  | .DOUBLE => "DOUBLE"
  | .DOUBLE_ARRAY => "DOUBLE_ARRAY"
  | .INT64 => "INT64"
  | .INT64_ARRAY => "INT64_ARRAY"
  | .STRING => "STRING"
  | .STRING_ARRAY => "STRING_ARRAY"
  | .BYTES => "BYTES"

/-- `Feature.ValueType[name]`: lookup of an enum member by its exact name;
`none` embeds the `KeyError` raised by the proto enum on an unknown name. -/
def valueTypeOfName (s : String) : Option ValueType :=
  if s = "VALUE_TYPE_UNSPECIFIED" then some .VALUE_TYPE_UNSPECIFIED
  else if s = "BOOL" then some .BOOL
  else if s = "BOOL_ARRAY" then some .BOOL_ARRAY
  else if s = "DOUBLE" then some .DOUBLE
  else if s = "DOUBLE_ARRAY" then some .DOUBLE_ARRAY
  else if s = "INT64" then some .INT64
  else if s = "INT64_ARRAY" then some .INT64_ARRAY
  else if s = "STRING" then some .STRING
  else if s = "STRING_ARRAY" then some .STRING_ARRAY
  else if s = "BYTES" then some .BYTES
  else none

/-- Python's `str.upper()` as applied by `_set_feature_metadata` before the
enum lookup, character by character (the enum member names are all ASCII, and
only exact matches succeed, so ASCII uppercasing is the relevant behavior). -/
def py_upper (s : String) : String :=
  ⟨s.data.map Char.toUpper⟩

/-- Membership in the tuple of array types rejected by
`DataImporter._set_feature_metadata` (lines 263-267). -/
def ValueType.isArray : ValueType → Bool
  | .BOOL_ARRAY => true
  | .DOUBLE_ARRAY => true
  | .INT64_ARRAY => true
  | .STRING_ARRAY => true
  | _ => false

/-! ### Ordered association lists (Python `dict` / `defaultdict`) -/

/-- First binding of a key, like `d[k]` on a plain dict when present. -/
def alookup {α : Type} (xs : List (String × α)) (k : String) : Option α :=
  match xs with
  | [] => none
  | (k₀, v₀) :: rest => if k₀ = k then some v₀ else alookup rest k

/-- `defaultdict` read access `d[k]`: the stored value, or the factory default.
(The factory insertion itself is made explicit at each write-back site.) -/
def aget {α : Type} (xs : List (String × α)) (dflt : α) (k : String) : α :=
  (alookup xs k).getD dflt

/-- Write `d[k] = v`: replace the binding in place when the key is present
(Python dicts keep the original insertion position), else append it. -/
def aset {α : Type} (xs : List (String × α)) (k : String) (v : α) :
    List (String × α) :=
  match xs with
  | [] => [(k, v)]
  | (k₀, v₀) :: rest =>
      if k₀ = k then (k₀, v) :: rest else (k₀, v₀) :: aset rest k v

/-- The keys of an association list, in insertion order. -/
def akeys {α : Type} (xs : List (String × α)) : List String := xs.map (·.1)

/-! ### The data model (`featurestore_data_classes.py`) -/

/-- `FeatureMetadata`: the declared value type of one feature. -/
structure FeatureMetadata where
  data_type : ValueType := .VALUE_TYPE_UNSPECIFIED
  deriving DecidableEq

/-- `Feature`: one feature value, an opaque string. -/
structure Feature where
  value : String := ""
  deriving DecidableEq

/-- `Entity`: feature identifier → value. -/
structure Entity where
  features : List (String × Feature) := []
  deriving DecidableEq

/-- `EntityType`: feature identifier → metadata, entity identifier → entity. -/
structure EntityType where
  features_metadata : List (String × FeatureMetadata) := []
  entities : List (String × Entity) := []
  deriving DecidableEq

/-- `Featurestore`: entity-type identifier → entity type. -/
structure Featurestore where
  entity_types : List (String × EntityType) := []
  deriving DecidableEq

/-! ### Importer: flat-file decoding (`data_importer.py`) -/

/-- `DataImporter._parse_values` (lines 297-321): a row with other than 12
tokens fails; otherwise the tokens at positions 1, 3, 5, 7, 9, 11 are the
featurestore id, entity-type id, entity id, feature id, data type and value.
The Python version returns a success flag plus six strings; `Option` carries
the same information. -/
def parse_values (row : List String) :
    Option (String × String × String × String × String × String) :=
  if row.length = 12 then
    some (row.getD 1 "", row.getD 3 "", row.getD 5 "", row.getD 7 "",
      row.getD 9 "", row.getD 11 "")
  else
    none

/-- `DataImporter._set_feature_metadata` (lines 243-276): if the feature id is
unknown, case-normalize the data-type token, look it up in the enum, reject
array types and unknown names (each with one warning), otherwise record the
type. Result: success flag, updated entity type, number of warnings logged. -/
def set_feature_metadata (feature_id feature_data_type : String)
    (entity_type : EntityType) : Bool × EntityType × Nat :=
  if (alookup entity_type.features_metadata feature_id).isSome then
    (true, entity_type, 0)
  else
    match valueTypeOfName (py_upper feature_data_type) with
    | none => (false, entity_type, 1)
    | some t =>
        if t.isArray then (false, entity_type, 1)
        else
          (true,
            { entity_type with
              features_metadata :=
                aset entity_type.features_metadata feature_id ⟨t⟩ }, 0)

/-- State threaded through `DataImporter._parse_schema_and_data`:
the `featurestores` defaultdict, the `featurestore_id_map`, how many suffixes
have been drawn from the uuid stream, and how many warnings were logged. -/
structure ParseState where
  featurestores : List (String × Featurestore) := []
  fsIdMap : List (String × String) := []
  ctr : Nat := 0
  warnings : Nat := 0
  deriving DecidableEq

/-- `DataImporter._map_featurestore` (lines 278-295): on first reference of an
original featurestore id, record `id ++ "_" ++ suffix` (the uuid4-prefix
suffix is modelled by the injected stream `σ`, one draw per generation);
afterwards reuse the recorded mapping. Returns the mapped id and the updated
state. -/
def map_featurestore (σ : Nat → String) (s : ParseState)
    (featurestore_id : String) : String × ParseState :=
  match alookup s.fsIdMap featurestore_id with
  | some m => (m, s)
  | none =>
      let m := featurestore_id ++ "_" ++ σ s.ctr
      (m, { s with fsIdMap := aset s.fsIdMap featurestore_id m,
                   ctr := s.ctr + 1 })

/-- `DataImporter._store_values` (lines 216-241): map the featurestore id,
default-construct the featurestore and entity type on first reference, set the
feature metadata, and on success overwrite the entity's feature value. -/
def store_values (σ : Nat → String) (s : ParseState)
    (featurestore_id entity_type_id entity_id feature_id feature_data_type
      feature_value : String) : ParseState :=
  let p := map_featurestore σ s featurestore_id
  let mapped_id := p.1
  let s₁ := p.2
  let fs := aget s₁.featurestores {} mapped_id
  let et := aget fs.entity_types {} entity_type_id
  let r := set_feature_metadata feature_id feature_data_type et
  let et₂ :=
    if r.1 then
      { r.2.1 with
        entities :=
          aset r.2.1.entities entity_id
            { features :=
                aset (aget r.2.1.entities {} entity_id).features feature_id
                  ⟨feature_value⟩ } }
    else r.2.1
  { s₁ with
    featurestores :=
      aset s₁.featurestores mapped_id
        { fs with entity_types := aset fs.entity_types entity_type_id et₂ },
    warnings := s₁.warnings + r.2.2 }

/-- One iteration of the row loop of `DataImporter._parse_schema_and_data`
(lines 205-213): a parsed row is stored, a malformed one logs one warning. -/
def parse_row (σ : Nat → String) (s : ParseState) (row : List String) :
    ParseState :=
  match parse_values row with
  | some (fs_id, et_id, e_id, f_id, dt, v) =>
      store_values σ s fs_id et_id e_id f_id dt v
  | none => { s with warnings := s.warnings + 1 }

/-- `DataImporter._parse_schema_and_data` (lines 191-214): fold the row loop
over the file's rows, starting from empty state. -/
def parse_schema_and_data (σ : Nat → String) (rows : List (List String)) :
    ParseState :=
  rows.foldl (parse_row σ) {}

/-! ### Exporter: flat-file encoding (`data_exporter.py`) -/

/-- Data-type token emitted by `DataExporter._write_to_file` (line 206):
`entity_type.features_metadata[feature_id].data_type.name`, where
`features_metadata` is a defaultdict whose factory default is
`VALUE_TYPE_UNSPECIFIED`. -/
def metadata_type_name (entity_type : EntityType) (feature_id : String) :
    String :=
  (aget entity_type.features_metadata {} feature_id).data_type.name

/-- `DataExporter._write_to_file` (lines 189-209): one 12-token row per
(featurestore, entity type, entity, feature) present in the model, iterated
featurestore-major in insertion order. -/
def write_to_file (featurestores_data : List (String × Featurestore)) :
    List (List String) :=
  featurestores_data.flatMap fun p =>
    p.2.entity_types.flatMap fun q =>
      q.2.entities.flatMap fun r =>
        r.2.features.map fun w =>
          ["featurestores", p.1, "entityTypes", q.1, "entities", r.1,
           "features", w.1, "featureDataTypes", metadata_type_name q.2 w.1,
           "featureValues", w.2.value]

/-- Doubling of quote characters inside a quoted csv field. -/
def escape_quotes : List Char → List Char
  | [] => []
  | c :: rest =>
      if c = '"' then '"' :: '"' :: escape_quotes rest
      else c :: escape_quotes rest

/-- One field as Python's `csv.writer(..., delimiter='/')` emits it
(QUOTE_MINIMAL): quoted, with inner quotes doubled, exactly when the field
contains the delimiter, the quote character or a line break. -/
def csv_field (tok : String) : String :=
  if tok.data.any (fun c => c = '/' || c = '"' || c = '\n' || c = '\r') then
    ⟨'"' :: escape_quotes tok.data ++ ['"']⟩
  else tok

/-- Concatenation of rendered fields with the `/` delimiter between them. -/
def join_fields : List (List Char) → List Char
  | [] => []
  | [x] => x
  | x :: rest => x ++ '/' :: join_fields rest

/-- One line of the flat file as written by the csv writer with `/` as the
delimiter. -/
def render_row (row : List String) : String :=
  ⟨join_fields (row.map fun tok => (csv_field tok).data)⟩

/-! ### Staging cleanup (`try`/`finally` blocks) -/

/-- Outcome of a Python call: normal return or a raised exception. -/
inductive PyResult (α : Type) where
  | ok : α → PyResult α
  | exn : String → PyResult α
  deriving DecidableEq

/-- Observable outcome of one per-entity-type staging step: the overall
result (normal return or propagated exception) and how many times
`blob.delete()` ran. -/
structure CleanupTrace where
  result : PyResult Unit
  deletes : Nat
  deriving DecidableEq

/-- The `try`/`finally` block of `DataImporter._upload_data` (lines 75-82) for
one entity type, with the outcomes of the two remote calls as parameters:
`upload_outcome` is `_upload_data_file` (returning the entity-id column name),
`ingest_outcome` is `_run_data_ingestion_job` applied to that name. The
`finally` clause runs `blob.delete()` on every path. -/
def upload_data_step (upload_outcome : PyResult String)
    (ingest_outcome : String → PyResult Unit) : CleanupTrace :=
  match upload_outcome with
  | .exn m => ⟨.exn m, 1⟩
  | .ok col =>
      match ingest_outcome col with
      | .exn m => ⟨.exn m, 1⟩
      | .ok _ => ⟨.ok (), 1⟩

/-- The `try`/`finally` block of
`DataExporter._export_entity_type_entity_data` (lines 178-187) for one entity
type: `export_outcome` is `_export_entity_and_features` (export job plus
download, returning the staged CSV text), `decode_outcome` is
`_process_entities_and_features` applied to it. The `finally` clause runs
`blob.delete()` on every path. -/
def export_entity_type_step (export_outcome : PyResult String)
    (decode_outcome : String → PyResult Unit) : CleanupTrace :=
  match export_outcome with
  | .exn m => ⟨.exn m, 1⟩
  | .ok text =>
      match decode_outcome text with
      | .exn m => ⟨.exn m, 1⟩
      | .ok _ => ⟨.ok (), 1⟩

/-! ### `DataImporter.execute` -/

/-- The remote interactions `DataImporter.execute` can start, abstracted to
markers: constructing the `FeaturestoreServiceClient`, the create-schema pass,
and the upload pass. -/
inductive RemoteCall where
  | construct_client
  | create_schema
  | upload_data
  deriving DecidableEq

/-- `DataImporter.execute` (lines 414-421): parse the file; only when the
resulting `featurestores` dict is non-empty (Python truthiness) construct the
client, create the schema and upload the data. Returns the remote interactions
issued. -/
def execute (σ : Nat → String) (rows : List (List String)) : List RemoteCall :=
  let featurestores := (parse_schema_and_data σ rows).featurestores
  if featurestores.isEmpty then []
  else [.construct_client, .create_schema, .upload_data]

/-! ### Accessors used to state the claims

Missing containers read as the defaultdict factory default (the empty
container), so a lookup through a missing level yields `none` exactly as a
lookup through an explicitly empty level does. -/

/-- The remapped featurestore identifier a line referencing `F` is stored
under, in state `s`. -/
def mapped_id (σ : Nat → String) (s : ParseState) (F : String) : String :=
  (map_featurestore σ s F).1

/-- The entity type the parse state holds at (featurestore id, entity-type
id); the empty entity type when absent. -/
def entity_type_in (s : ParseState) (F E : String) : EntityType :=
  aget (aget s.featurestores {} F).entity_types {} E

/-- The feature value stored at (featurestore, entity type, entity, feature)
in the importer's parse state. -/
def value_at (s : ParseState) (F E e f : String) : Option String :=
  (alookup (aget (entity_type_in s F E).entities {} e).features f).map
    (·.value)

/-- The metadata value type recorded at (featurestore, entity type, feature)
in the importer's parse state. -/
def metadata_at (s : ParseState) (F E f : String) : Option ValueType :=
  (alookup (entity_type_in s F E).features_metadata f).map (·.data_type)

/-- The feature value at (featurestore, entity type, entity, feature) of a
data model (used to state properties of the exporter's model). -/
def model_value (fss : List (String × Featurestore)) (F E e f : String) :
    Option String :=
  (alookup
    (aget (aget (aget fss {} F).entity_types {} E).entities {} e).features
    f).map (·.value)

/-- Fold of the row loop from an arbitrary intermediate state (the loop of
`_parse_schema_and_data` part-way through the file). -/
def parse_from (σ : Nat → String) (s : ParseState)
    (rows : List (List String)) : ParseState :=
  rows.foldl (parse_row σ) s

/-- A data-type token the importer accepts for a not-yet-known feature:
it names a non-array enum member after case normalization. -/
def good_type (dt : String) : Bool :=
  match valueTypeOfName (py_upper dt) with
  | some t => !t.isArray
  | none => false

/-- Keys are unique at every level of the model, as §3 of the spec requires
of a well-formed Data Model ("mapping = keys unique"). -/
def model_nodup (fss : List (String × Featurestore)) : Prop :=
  (akeys fss).Nodup ∧
    ∀ p ∈ fss, (akeys p.2.entity_types).Nodup ∧
      ∀ q ∈ p.2.entity_types, (akeys q.2.entities).Nodup ∧
        ∀ r ∈ q.2.entities, (akeys r.2.features).Nodup

/-- Every feature value present in the model has a non-array recorded type
(array variants are a spec non-goal and are rejected on import). -/
def model_scalar (fss : List (String × Featurestore)) : Prop :=
  ∀ p ∈ fss, ∀ q ∈ p.2.entity_types, ∀ r ∈ q.2.entities, ∀ w ∈ r.2.features,
    (aget q.2.features_metadata {} w.1).data_type.isArray = false

/-- The collision-avoidance map drew no colliding suffixes: distinct original
identifiers were remapped to distinct identifiers. -/
def map_inj (m : List (String × String)) : Prop :=
  ∀ p₁ ∈ m, ∀ p₂ ∈ m, p₁.2 = p₂.2 → p₁.1 = p₂.1

/-! ### Association-list lemmas -/

theorem alookup_aset_self {α : Type} (xs : List (String × α)) (k : String)
    (v : α) : alookup (aset xs k v) k = some v := by
  induction xs with
  | nil => simp [aset, alookup]
  | cons hd tl ih =>
      by_cases h : hd.1 = k
      · simp [aset, alookup, h]
      · simpa [aset, alookup, h] using ih

theorem alookup_aset_ne {α : Type} (xs : List (String × α)) {k k' : String}
    (v : α) (h : k ≠ k') : alookup (aset xs k v) k' = alookup xs k' := by
  induction xs with
  | nil => simp [aset, alookup, h]
  | cons hd tl ih =>
      by_cases hh : hd.1 = k
      · simp [aset, alookup, hh, h]
      · simp only [aset, hh, if_false, alookup]
        by_cases hk' : hd.1 = k'
        · simp [hk']
        · simp [hk', ih]

theorem aget_eq_of_alookup {α : Type} {xs : List (String × α)} {k : String}
    {v : α} (dflt : α) (h : alookup xs k = some v) : aget xs dflt k = v := by
  simp [aget, h]

theorem aget_eq_of_alookup_none {α : Type} {xs : List (String × α)}
    {k : String} (dflt : α) (h : alookup xs k = none) : aget xs dflt k = dflt := by
  simp [aget, h]

theorem aget_aset_self {α : Type} (xs : List (String × α)) (dflt : α)
    (k : String) (v : α) : aget (aset xs k v) dflt k = v := by
  simp [aget, alookup_aset_self]

theorem aget_aset_ne {α : Type} (xs : List (String × α)) (dflt : α)
    {k k' : String} (v : α) (h : k ≠ k') :
    aget (aset xs k v) dflt k' = aget xs dflt k' := by
  simp [aget, alookup_aset_ne xs v h]

theorem mem_of_alookup {α : Type} {xs : List (String × α)} {k : String}
    {v : α} (h : alookup xs k = some v) : (k, v) ∈ xs := by
  induction xs with
  | nil => simp [alookup] at h
  | cons hd tl ih =>
      by_cases hh : hd.1 = k
      · simp [alookup, hh] at h
        cases hd
        simp_all
      · simp only [alookup, hh, if_false] at h
        exact List.mem_cons_of_mem _ (ih h)

theorem alookup_isSome_of_mem {α : Type} {xs : List (String × α)} {k : String}
    {v : α} (h : (k, v) ∈ xs) : (alookup xs k).isSome := by
  induction xs with
  | nil => simp at h
  | cons hd tl ih =>
      by_cases hh : hd.1 = k
      · simp [alookup, hh]
      · rcases List.mem_cons.mp h with h₀ | h₀
        · cases h₀; simp at hh
        · simpa [alookup, hh] using ih h₀

/-! ### Basic facts about the importer's row loop -/

/-- `_map_featurestore` never touches the featurestores dict or the warning
count; it only extends the id map and draws at most one suffix. -/
theorem map_featurestore_frame (σ : Nat → String) (s : ParseState)
    (F : String) :
    (map_featurestore σ s F).2.featurestores = s.featurestores ∧
      (map_featurestore σ s F).2.warnings = s.warnings := by
  unfold map_featurestore
  cases alookup s.fsIdMap F <;> simp

/-- A row with other than 12 tokens only logs one warning: the rest of the
state survives untouched (`_parse_schema_and_data`, else-branch). -/
theorem parse_row_malformed (σ : Nat → String) (s : ParseState)
    {r : List String} (h : r.length ≠ 12) :
    parse_row σ s r = { s with warnings := s.warnings + 1 } := by
  unfold parse_row parse_values
  simp [h]

/-- All-malformed input leaves the featurestores dict empty. -/
theorem parse_from_malformed_featurestores (σ : Nat → String)
    (rows : List (List String)) :
    ∀ s : ParseState, (∀ r ∈ rows, r.length ≠ 12) →
      (parse_from σ s rows).featurestores = s.featurestores := by
  induction rows with
  | nil => intro s _; rfl
  | cons r rest ih =>
      intro s h
      have hr : r.length ≠ 12 := h r (List.mem_cons_self r rest)
      show (parse_from σ (parse_row σ s r) rest).featurestores = _
      rw [parse_row_malformed σ s hr]
      exact ih _ fun r' hr' => h r' (List.mem_cons_of_mem _ hr')

/-- `_map_featurestore` reads neither the warning count: changing it changes
nothing else in the result. -/
theorem map_featurestore_set_warnings (σ : Nat → String) (s : ParseState)
    (F : String) (w : Nat) :
    map_featurestore σ { s with warnings := w } F
      = ((map_featurestore σ s F).1,
         { (map_featurestore σ s F).2 with warnings := w }) := by
  unfold map_featurestore
  rcases h : alookup s.fsIdMap F with _ | m <;> simp [h]

/-- The warning counter is write-only in the row loop: a row's effect on the
featurestores, the id map and the suffix counter does not depend on it, and
the number of warnings the row adds does not either. -/
theorem parse_row_set_warnings (σ : Nat → String) (s : ParseState)
    (row : List String) (w : Nat) :
    (parse_row σ { s with warnings := w } row).featurestores
        = (parse_row σ s row).featurestores ∧
      (parse_row σ { s with warnings := w } row).fsIdMap
        = (parse_row σ s row).fsIdMap ∧
      (parse_row σ { s with warnings := w } row).ctr
        = (parse_row σ s row).ctr ∧
      (parse_row σ { s with warnings := w } row).warnings + s.warnings
        = (parse_row σ s row).warnings + w := by
  unfold parse_row
  rcases hp : parse_values row with _ | ⟨F, E, e, f, dt, v⟩
  · simp
    omega
  · simp only [store_values, map_featurestore_set_warnings]
    have hw : (map_featurestore σ s F).2.warnings = s.warnings :=
      (map_featurestore_frame σ s F).2
    simp
    omega

/-- Helper: two parse states agreeing except possibly on warnings. -/
theorem parse_state_eq_set_warnings {t t' : ParseState}
    (h₁ : t'.featurestores = t.featurestores) (h₂ : t'.fsIdMap = t.fsIdMap)
    (h₃ : t'.ctr = t.ctr) : t' = { t with warnings := t'.warnings } := by
  cases t
  cases t'
  simp_all

/-- Fold version of `parse_row_set_warnings`: the whole remaining run evolves
identically apart from the warning offset. -/
theorem parse_from_set_warnings (σ : Nat → String) (rows : List (List String)) :
    ∀ (s : ParseState) (w : Nat),
      (parse_from σ { s with warnings := w } rows).featurestores
          = (parse_from σ s rows).featurestores ∧
        (parse_from σ { s with warnings := w } rows).fsIdMap
          = (parse_from σ s rows).fsIdMap ∧
        (parse_from σ { s with warnings := w } rows).ctr
          = (parse_from σ s rows).ctr ∧
        (parse_from σ { s with warnings := w } rows).warnings + s.warnings
          = (parse_from σ s rows).warnings + w := by
  induction rows with
  | nil =>
      intro s w
      refine ⟨rfl, rfl, rfl, ?_⟩
      show w + s.warnings = s.warnings + w
      omega
  | cons r rest ih =>
      intro s w
      obtain ⟨h₁, h₂, h₃, h₄⟩ := parse_row_set_warnings σ s r w
      obtain ⟨g₁, g₂, g₃, g₄⟩ :=
        ih (parse_row σ s r) (parse_row σ { s with warnings := w } r).warnings
      have hstep := parse_state_eq_set_warnings h₁ h₂ h₃
      have key : parse_from σ { s with warnings := w } (r :: rest)
          = parse_from σ (parse_row σ { s with warnings := w } r) rest := rfl
      rw [hstep] at key
      rw [key,
        show parse_from σ s (r :: rest)
          = parse_from σ (parse_row σ s r) rest from rfl]
      exact ⟨g₁, g₂, g₃, by omega⟩

/-- `_map_featurestore` on an already-mapped identifier: pure reuse, no state
change. -/
theorem map_featurestore_known (σ : Nat → String) {s : ParseState}
    {F m : String} (h : alookup s.fsIdMap F = some m) :
    map_featurestore σ s F = (m, s) := by
  unfold map_featurestore
  rw [h]

/-- `_map_featurestore` on a first-seen identifier: generate
`F ++ "_" ++ suffix`, record it, advance the suffix counter. -/
theorem map_featurestore_unknown (σ : Nat → String) {s : ParseState}
    {F : String} (h : alookup s.fsIdMap F = none) :
    map_featurestore σ s F
      = (F ++ "_" ++ σ s.ctr,
         { s with fsIdMap := aset s.fsIdMap F (F ++ "_" ++ σ s.ctr),
                  ctr := s.ctr + 1 }) := by
  unfold map_featurestore
  rw [h]

/-- `_set_feature_metadata` on a feature whose type is already recorded:
success, nothing changes, no warning — whatever the data-type token says. -/
theorem set_feature_metadata_known {f : String} (dt : String)
    {et : EntityType} (h : (alookup et.features_metadata f).isSome) :
    set_feature_metadata f dt et = (true, et, 0) := by
  unfold set_feature_metadata
  rw [if_pos h]

/-- `_set_feature_metadata` on an unknown feature whose token is unrecognized
or names an array type: failure, entity type unchanged, one warning. -/
theorem set_feature_metadata_bad {f dt : String} {et : EntityType}
    (h : alookup et.features_metadata f = none)
    (hbad : valueTypeOfName (py_upper dt) = none ∨
      ∃ t, valueTypeOfName (py_upper dt) = some t ∧ t.isArray = true) :
    set_feature_metadata f dt et = (false, et, 1) := by
  unfold set_feature_metadata
  rw [if_neg (by simp [h])]
  rcases hbad with hb | ⟨t, ht, ha⟩
  · rw [hb]
  · rw [ht]
    simp [ha]

/-- `_set_feature_metadata` on an unknown feature with a recognized
non-array token: success, the case-normalized type is recorded. -/
theorem set_feature_metadata_new {f dt : String} {et : EntityType}
    {t : ValueType} (h : alookup et.features_metadata f = none)
    (ht : valueTypeOfName (py_upper dt) = some t) (ha : t.isArray = false) :
    set_feature_metadata f dt et
      = (true,
         { et with features_metadata := aset et.features_metadata f ⟨t⟩ },
         0) := by
  unfold set_feature_metadata
  rw [if_neg (by simp [h]), ht]
  simp [ha]

/-- On failure `_set_feature_metadata` hands the entity type back
untouched. -/
theorem set_feature_metadata_fail_frame {f dt : String} {et : EntityType}
    (h : (set_feature_metadata f dt et).1 = false) :
    (set_feature_metadata f dt et).2.1 = et := by
  by_cases hk : (alookup et.features_metadata f).isSome
  · rw [set_feature_metadata_known dt hk] at h
    simp at h
  · have hn : alookup et.features_metadata f = none := by
      cases hx : alookup et.features_metadata f
      · rfl
      · rw [hx] at hk
        simp at hk
    rcases hv : valueTypeOfName (py_upper dt) with _ | t
    · rw [set_feature_metadata_bad hn (Or.inl hv)]
    · by_cases ha : t.isArray = true
      · rw [set_feature_metadata_bad hn (Or.inr ⟨t, hv, ha⟩)]
      · rw [set_feature_metadata_new hn hv
          (Bool.not_eq_true _ ▸ ha)] at h
        simp at h

/-- `entity_type_in` only reads the featurestores dict. -/
theorem entity_type_in_congr {s s' : ParseState}
    (h : s'.featurestores = s.featurestores) (F E : String) :
    entity_type_in s' F E = entity_type_in s F E := by
  unfold entity_type_in
  rw [h]

/-- What `_store_values` leaves at the line's own (mapped featurestore,
entity type) slot when the metadata step fails: exactly the entity type that
was there (modulo defaultdict completion) before the line. -/
theorem entity_type_in_store_values_fail (σ : Nat → String) (s : ParseState)
    (F E e f dt v : String)
    (h : (set_feature_metadata f dt (entity_type_in s (mapped_id σ s F) E)).1
      = false) :
    entity_type_in (store_values σ s F E e f dt v) (mapped_id σ s F) E
      = entity_type_in s (mapped_id σ s F) E := by
  have hfr := (map_featurestore_frame σ s F).1
  unfold store_values
  simp only [mapped_id] at *
  unfold entity_type_in at h ⊢
  simp only [hfr]
  rw [aget_aset_self, if_neg (by simp [h]), aget_aset_self,
    set_feature_metadata_fail_frame h]

/-- What `_store_values` leaves at the line's own slot when the metadata step
succeeds: the (possibly metadata-extended) entity type with the entity's
feature value overwritten. -/
theorem entity_type_in_store_values_ok (σ : Nat → String) (s : ParseState)
    (F E e f dt v : String)
    (h : (set_feature_metadata f dt (entity_type_in s (mapped_id σ s F) E)).1
      = true) :
    entity_type_in (store_values σ s F E e f dt v) (mapped_id σ s F) E
      = { (set_feature_metadata f dt
            (entity_type_in s (mapped_id σ s F) E)).2.1 with
          entities :=
            aset (set_feature_metadata f dt
                (entity_type_in s (mapped_id σ s F) E)).2.1.entities e
              { features :=
                  aset
                    (aget (set_feature_metadata f dt
                        (entity_type_in s (mapped_id σ s F) E)).2.1.entities
                      {} e).features
                    f ⟨v⟩ } } := by
  have hfr := (map_featurestore_frame σ s F).1
  unfold store_values
  simp only [mapped_id] at *
  unfold entity_type_in at h ⊢
  simp only [hfr]
  rw [aget_aset_self, if_pos h, aget_aset_self]

/-- Warnings added by `_store_values`: exactly what the metadata step
logged. -/
theorem store_values_warnings (σ : Nat → String) (s : ParseState)
    (F E e f dt v : String) :
    (store_values σ s F E e f dt v).warnings
      = s.warnings
        + (set_feature_metadata f dt
            (entity_type_in s (mapped_id σ s F) E)).2.2 := by
  have hfr := (map_featurestore_frame σ s F).1
  have hw := (map_featurestore_frame σ s F).2
  unfold store_values
  simp only [mapped_id] at *
  unfold entity_type_in
  simp only [hfr, hw]

/-- On success the line's value lands at the line's own quadruple,
overwriting anything there (last-write-wins). -/
theorem value_at_store_values_ok (σ : Nat → String) (s : ParseState)
    (F E e f dt v : String)
    (h : (set_feature_metadata f dt (entity_type_in s (mapped_id σ s F) E)).1
      = true) :
    value_at (store_values σ s F E e f dt v) (mapped_id σ s F) E e f
      = some v := by
  unfold value_at
  rw [entity_type_in_store_values_ok σ s F E e f dt v h]
  simp only []
  rw [aget_aset_self, alookup_aset_self]
  rfl

theorem alookup_eq_none_of_not_isSome {α : Type} {xs : List (String × α)}
    {k : String} (h : ¬(alookup xs k).isSome = true) : alookup xs k = none := by
  cases hx : alookup xs k
  · rfl
  · rw [hx] at h
    simp at h

/-- A recorded metadata binding survives `_set_feature_metadata`, whatever
the line's token: the map is only ever extended at absent keys. -/
theorem set_feature_metadata_metadata_mono {f dt : String} {et : EntityType}
    {f' : String} {fm : FeatureMetadata}
    (h : alookup et.features_metadata f' = some fm) :
    alookup (set_feature_metadata f dt et).2.1.features_metadata f'
      = some fm := by
  by_cases hk : (alookup et.features_metadata f).isSome
  · rw [set_feature_metadata_known dt hk]
    exact h
  · have hn := alookup_eq_none_of_not_isSome hk
    rcases hv : valueTypeOfName (py_upper dt) with _ | t
    · rw [set_feature_metadata_bad hn (Or.inl hv)]
      exact h
    · by_cases ha : t.isArray = true
      · rw [set_feature_metadata_bad hn (Or.inr ⟨t, hv, ha⟩)]
        exact h
      · rw [set_feature_metadata_new hn hv (Bool.not_eq_true _ ▸ ha)]
        have hne : f ≠ f' := by
          intro he
          rw [he, h] at hn
          cases hn
        show alookup (aset et.features_metadata f ⟨t⟩) f' = some fm
        rw [alookup_aset_ne _ _ hne]
        exact h

/-- `_store_values` touches no entity type other than the line's own
(mapped featurestore, entity type) slot. -/
theorem entity_type_in_store_values_other (σ : Nat → String) (s : ParseState)
    (F E e f dt v : String) (F' E' : String)
    (h : ¬(F' = mapped_id σ s F ∧ E' = E)) :
    entity_type_in (store_values σ s F E e f dt v) F' E'
      = entity_type_in s F' E' := by
  have hfr := (map_featurestore_frame σ s F).1
  unfold store_values entity_type_in
  simp only [mapped_id] at *
  simp only [hfr]
  by_cases hF : F' = (map_featurestore σ s F).1
  · have hE : ¬E' = E := fun hE => h ⟨hF, hE⟩
    rw [← hF, aget_aset_self]
    show aget (aset
      (aget s.featurestores {} F').entity_types E _) {} E' = _
    rw [aget_aset_ne _ _ _ fun hEE => hE hEE.symm]
  · rw [aget_aset_ne _ _ _ fun hFF => hF hFF.symm]

/-- Recorded metadata survives `_store_values` at every coordinate. -/
theorem metadata_at_store_values_mono (σ : Nat → String) (s : ParseState)
    (F E e f dt v : String) {F' E' f' : String} {t : ValueType}
    (h : metadata_at s F' E' f' = some t) :
    metadata_at (store_values σ s F E e f dt v) F' E' f' = some t := by
  by_cases hc : F' = mapped_id σ s F ∧ E' = E
  · obtain ⟨hF, hE⟩ := hc
    subst hF
    subst hE
    unfold metadata_at at h ⊢
    obtain ⟨fm, hfm, hdt⟩ : ∃ fm,
        alookup (entity_type_in s (mapped_id σ s F) E').features_metadata f'
            = some fm ∧ fm.data_type = t := by
      cases hx : alookup
          (entity_type_in s (mapped_id σ s F) E').features_metadata f' with
      | none => rw [hx] at h; cases h
      | some fm =>
          rw [hx] at h
          exact ⟨fm, rfl, by simpa using h⟩
    by_cases hok : (set_feature_metadata f dt
        (entity_type_in s (mapped_id σ s F) E')).1 = true
    · rw [entity_type_in_store_values_ok σ s F E' e f dt v hok]
      show (alookup (set_feature_metadata f dt
          (entity_type_in s (mapped_id σ s F) E')).2.1.features_metadata
        f').map _ = some t
      rw [set_feature_metadata_metadata_mono hfm]
      simp [hdt]
    · have hfail : (set_feature_metadata f dt
          (entity_type_in s (mapped_id σ s F) E')).1 = false := by
        cases hx : (set_feature_metadata f dt
            (entity_type_in s (mapped_id σ s F) E')).1
        · rfl
        · exact absurd hx hok
      rw [entity_type_in_store_values_fail σ s F E' e f dt v hfail, hfm]
      simp [hdt]
  · unfold metadata_at at h ⊢
    rw [entity_type_in_store_values_other σ s F E e f dt v F' E' hc]
    exact h

/-- Recorded metadata survives one whole iteration of the row loop. -/
theorem metadata_at_parse_row_mono (σ : Nat → String) (s : ParseState)
    (row : List String) {F' E' f' : String} {t : ValueType}
    (h : metadata_at s F' E' f' = some t) :
    metadata_at (parse_row σ s row) F' E' f' = some t := by
  unfold parse_row
  rcases hp : parse_values row with _ | ⟨F, E, e, f, dt, v⟩
  · exact h
  · exact metadata_at_store_values_mono σ s F E e f dt v h

theorem mem_aset {α : Type} {xs : List (String × α)} {k k' : String}
    {v v' : α} (h : (k', v') ∈ aset xs k v) :
    (k', v') ∈ xs ∨ (k' = k ∧ v' = v) := by
  induction xs with
  | nil => simpa [aset] using h
  | cons hd tl ih =>
      by_cases hh : hd.1 = k
      · rw [aset, if_pos hh] at h
        rcases List.mem_cons.mp h with h₀ | h₀
        · rcases hd with ⟨k₀, v₀⟩
          cases h₀
          exact Or.inr ⟨hh.symm ▸ rfl, rfl⟩
        · exact Or.inl (List.mem_cons_of_mem _ h₀)
      · rw [aset, if_neg hh] at h
        rcases List.mem_cons.mp h with h₀ | h₀
        · exact Or.inl (h₀ ▸ List.mem_cons_self _ _)
        · rcases ih h₀ with h₁ | h₁
          · exact Or.inl (List.mem_cons_of_mem _ h₁)
          · exact Or.inr h₁

/-- `_store_values` changes the featurestore id map exactly as
`_map_featurestore` does, and never touches the suffix counter further. -/
theorem store_values_fsIdMap (σ : Nat → String) (s : ParseState)
    (F E e f dt v : String) :
    (store_values σ s F E e f dt v).fsIdMap
        = (map_featurestore σ s F).2.fsIdMap ∧
      (store_values σ s F E e f dt v).ctr
        = (map_featurestore σ s F).2.ctr := by
  unfold store_values
  exact ⟨rfl, rfl⟩

/-- Every binding the id map ever holds has the shape
`original ++ "_" ++ σ k`. -/
theorem parse_row_fsIdMap_shape (σ : Nat → String) (s : ParseState)
    (row : List String)
    (h : ∀ p ∈ s.fsIdMap, ∃ k, p.2 = p.1 ++ "_" ++ σ k) :
    ∀ p ∈ (parse_row σ s row).fsIdMap, ∃ k, p.2 = p.1 ++ "_" ++ σ k := by
  unfold parse_row
  rcases hp : parse_values row with _ | ⟨F, E, e, f, dt, v⟩
  · exact h
  · rw [(store_values_fsIdMap σ s F E e f dt v).1]
    rcases hm : alookup s.fsIdMap F with _ | m
    · rw [map_featurestore_unknown σ hm]
      intro p hp'
      rcases mem_aset hp' with h₀ | ⟨h₁, h₂⟩
      · exact h p h₀
      · exact ⟨s.ctr, by rw [h₂, h₁]⟩
    · rw [map_featurestore_known σ hm]
      exact h

/-- Fold version of the id-map shape invariant. -/
theorem parse_from_fsIdMap_shape (σ : Nat → String)
    (rows : List (List String)) :
    ∀ s : ParseState, (∀ p ∈ s.fsIdMap, ∃ k, p.2 = p.1 ++ "_" ++ σ k) →
      ∀ p ∈ (parse_from σ s rows).fsIdMap, ∃ k, p.2 = p.1 ++ "_" ++ σ k := by
  induction rows with
  | nil => intro s h; exact h
  | cons r rest ih =>
      intro s h
      exact ih (parse_row σ s r) (parse_row_fsIdMap_shape σ s r h)

/-- An id-map binding, once made, survives `_store_values`. -/
theorem fsIdMap_mono_store_values (σ : Nat → String) (s : ParseState)
    (F E e f dt v : String) {F' m : String}
    (h : alookup s.fsIdMap F' = some m) :
    alookup (store_values σ s F E e f dt v).fsIdMap F' = some m := by
  rw [(store_values_fsIdMap σ s F E e f dt v).1]
  rcases hm : alookup s.fsIdMap F with _ | m₀
  · rw [map_featurestore_unknown σ hm]
    show alookup (aset s.fsIdMap F _) F' = some m
    have hne : F ≠ F' := by
      intro he
      rw [he, h] at hm
      cases hm
    rw [alookup_aset_ne _ _ hne]
    exact h
  · rw [map_featurestore_known σ hm]
    exact h

/-- An id-map binding survives one whole iteration of the row loop. -/
theorem fsIdMap_mono_parse_row (σ : Nat → String) (s : ParseState)
    (row : List String) {F' m : String}
    (h : alookup s.fsIdMap F' = some m) :
    alookup (parse_row σ s row).fsIdMap F' = some m := by
  unfold parse_row
  rcases hp : parse_values row with _ | ⟨F, E, e, f, dt, v⟩
  · exact h
  · exact fsIdMap_mono_store_values σ s F E e f dt v h

/-- An id-map binding survives the rest of the run. -/
theorem fsIdMap_mono_parse_from (σ : Nat → String)
    (rows : List (List String)) :
    ∀ (s : ParseState) {F' m : String}, alookup s.fsIdMap F' = some m →
      alookup (parse_from σ s rows).fsIdMap F' = some m := by
  induction rows with
  | nil => intro s F' m h; exact h
  | cons r rest ih =>
      intro s F' m h
      exact ih (parse_row σ s r) (fsIdMap_mono_parse_row σ s r h)

/-- `p ++ a` determines `a`. -/
theorem string_append_left_cancel {p a b : String} (h : p ++ a = p ++ b) :
    a = b := by
  have hd : (p ++ a).data = (p ++ b).data := by rw [h]
  rw [String.data_append, String.data_append] at hd
  have hab := List.append_cancel_left hd
  cases a
  cases b
  simp only at hab
  rw [hab]

/-! ### The encoder's line inventory -/

/-- The `line_data` list `_write_to_file` builds for one
(featurestore, entity type, entity, feature) combination. -/
def flat_row (F E e f dt v : String) : List String :=
  ["featurestores", F, "entityTypes", E, "entities", e, "features", f,
   "featureDataTypes", dt, "featureValues", v]

/-- Does a row carry the given identifier quadruple (positions 1, 3, 5, 7)? -/
def quad_match (F E e f : String) (r : List String) : Bool :=
  r.getD 1 "" == F && r.getD 3 "" == E && r.getD 5 "" == e && r.getD 7 "" == f

/-- The emitted rows carrying a given identifier quadruple. -/
def quad_filter (F E e f : String) (rows : List (List String)) :
    List (List String) :=
  rows.filter (quad_match F E e f)

theorem quad_match_flat_row (F E e f F₀ E₀ e₀ f₀ dt v : String) :
    quad_match F E e f (flat_row F₀ E₀ e₀ f₀ dt v)
      = (F₀ == F && E₀ == E && e₀ == e && f₀ == f) := rfl

theorem quad_filter_eq_nil {F E e f : String} {rows : List (List String)}
    (h : ∀ r ∈ rows, quad_match F E e f r = false) :
    quad_filter F E e f rows = [] := by
  unfold quad_filter
  induction rows with
  | nil => rfl
  | cons r rest ih =>
      rw [List.filter_cons, h r (List.mem_cons_self r rest)]
      exact ih fun r' hr' => h r' (List.mem_cons_of_mem _ hr')

theorem quad_filter_append (F E e f : String) (l₁ l₂ : List (List String)) :
    quad_filter F E e f (l₁ ++ l₂)
      = quad_filter F E e f l₁ ++ quad_filter F E e f l₂ :=
  List.filter_append _ _

/-- The rows of one entity: exactly one row carries the quadruple when the
feature is present and the entity's feature keys are unique. -/
theorem quad_filter_features (F E e f : String) (mtn : String → String)
    (feats : List (String × Feature)) {feat : Feature}
    (hn : (akeys feats).Nodup) (hf : alookup feats f = some feat) :
    quad_filter F E e f
        (feats.map fun w => flat_row F E e w.1 (mtn w.1) w.2.value)
      = [flat_row F E e f (mtn f) feat.value] := by
  induction feats with
  | nil => cases hf
  | cons hd tl ih =>
      rcases hd with ⟨f₀, feat₀⟩
      rw [List.map_cons]
      show quad_filter F E e f (flat_row F E e f₀ (mtn f₀) feat₀.value :: _)
        = _
      unfold quad_filter
      rw [List.filter_cons]
      by_cases hff : f = f₀
      · subst hff
        have hfeat : feat = feat₀ := by
          rw [alookup, if_pos rfl] at hf
          exact (Option.some.inj hf).symm
        subst hfeat
        rw [quad_match_flat_row]
        simp only [beq_self_eq_true, Bool.and_true, Bool.and_self, if_true]
        have hdead : quad_filter F E e f
            (tl.map fun w => flat_row F E e w.1 (mtn w.1) w.2.value) = [] := by
          refine quad_filter_eq_nil ?_
          intro r hr
          obtain ⟨w, hw, hrw⟩ := List.mem_map.mp hr
          subst hrw
          rw [quad_match_flat_row]
          have hwf : w.1 ≠ f := by
            intro he
            rw [akeys, List.map_cons] at hn
            have hmm : w.1 ∈ List.map (fun x => x.1) tl :=
              List.mem_map_of_mem (fun x => x.1) hw
            rw [he] at hmm
            exact (List.nodup_cons.mp hn).1 hmm
          simp [hwf]
        unfold quad_filter at hdead
        rw [hdead]
      · have hne : f₀ ≠ f := fun he => hff he.symm
        rw [quad_match_flat_row]
        simp only [beq_self_eq_true, Bool.true_and, Bool.and_true]
        rw [if_neg (by simp [hne])]
        have hn' : (akeys tl).Nodup := by
          rw [akeys, List.map_cons] at hn
          exact (List.nodup_cons.mp hn).2
        have hf' : alookup tl f = some feat := by
          rw [alookup, if_neg hne] at hf
          exact hf
        exact ih hn' hf'

/-- The rows of one entity type: only the named entity's segment can carry
the quadruple. -/
theorem quad_filter_entities (F E e f : String) (mtn : String → String)
    (ents : List (String × Entity)) {ent : Entity} {feat : Feature}
    (hn : (akeys ents).Nodup) (hent : alookup ents e = some ent)
    (hnf : (akeys ent.features).Nodup)
    (hfeat : alookup ent.features f = some feat) :
    quad_filter F E e f
        (ents.flatMap fun r =>
          r.2.features.map fun w => flat_row F E r.1 w.1 (mtn w.1) w.2.value)
      = [flat_row F E e f (mtn f) feat.value] := by
  induction ents with
  | nil => cases hent
  | cons hd tl ih =>
      rcases hd with ⟨e₀, ent₀⟩
      rw [List.flatMap_cons, quad_filter_append]
      by_cases hee : e = e₀
      · subst hee
        have hent₀ : ent = ent₀ := by
          rw [alookup, if_pos rfl] at hent
          exact (Option.some.inj hent).symm
        subst hent₀
        have hdead : quad_filter F E e f
            (tl.flatMap fun r => r.2.features.map fun w =>
              flat_row F E r.1 w.1 (mtn w.1) w.2.value) = [] := by
          refine quad_filter_eq_nil ?_
          intro r hr
          obtain ⟨⟨e₁, ent₁⟩, hmem, hr₁⟩ := List.mem_flatMap.mp hr
          obtain ⟨w, hw, hrw⟩ := List.mem_map.mp hr₁
          subst hrw
          rw [quad_match_flat_row]
          have hne : e₁ ≠ e := by
            intro he
            rw [akeys, List.map_cons] at hn
            have hmm : e₁ ∈ List.map (fun x => x.1) tl :=
              List.mem_map_of_mem (fun x => x.1) hmem
            rw [he] at hmm
            exact (List.nodup_cons.mp hn).1 hmm
          simp [hne]
        rw [hdead, List.append_nil]
        exact quad_filter_features F E e f mtn ent.features hnf hfeat
      · have hne₀ : e₀ ≠ e := fun he => hee he.symm
        have hdead : quad_filter F E e f
            (ent₀.features.map fun w =>
              flat_row F E e₀ w.1 (mtn w.1) w.2.value) = [] := by
          refine quad_filter_eq_nil ?_
          intro r hr
          obtain ⟨w, hw, hrw⟩ := List.mem_map.mp hr
          subst hrw
          rw [quad_match_flat_row]
          simp [hne₀]
        rw [hdead, List.nil_append]
        have hn' : (akeys tl).Nodup := by
          rw [akeys, List.map_cons] at hn
          exact (List.nodup_cons.mp hn).2
        have hent' : alookup tl e = some ent := by
          rw [alookup, if_neg hne₀] at hent
          exact hent
        exact ih hn' hent'

/-- The rows of one featurestore: only the named entity type's segment can
carry the quadruple. -/
theorem quad_filter_entity_types (F E e f : String)
    (ets : List (String × EntityType)) {et : EntityType} {ent : Entity}
    {feat : Feature}
    (hn : (akeys ets).Nodup) (het : alookup ets E = some et)
    (hne : (akeys et.entities).Nodup) (hent : alookup et.entities e = some ent)
    (hnf : (akeys ent.features).Nodup)
    (hfeat : alookup ent.features f = some feat) :
    quad_filter F E e f
        (ets.flatMap fun q =>
          q.2.entities.flatMap fun r =>
            r.2.features.map fun w =>
              flat_row F q.1 r.1 w.1 (metadata_type_name q.2 w.1) w.2.value)
      = [flat_row F E e f (metadata_type_name et f) feat.value] := by
  induction ets with
  | nil => cases het
  | cons hd tl ih =>
      rcases hd with ⟨E₀, et₀⟩
      rw [List.flatMap_cons, quad_filter_append]
      by_cases hEE : E = E₀
      · subst hEE
        have het₀ : et = et₀ := by
          rw [alookup, if_pos rfl] at het
          exact (Option.some.inj het).symm
        subst het₀
        have hdead : quad_filter F E e f
            (tl.flatMap fun q => q.2.entities.flatMap fun r =>
              r.2.features.map fun w =>
                flat_row F q.1 r.1 w.1 (metadata_type_name q.2 w.1)
                  w.2.value) = [] := by
          refine quad_filter_eq_nil ?_
          intro r hr
          obtain ⟨⟨E₁, et₁⟩, hmem, hr₁⟩ := List.mem_flatMap.mp hr
          obtain ⟨⟨e₁, ent₁⟩, hmem₂, hr₂⟩ := List.mem_flatMap.mp hr₁
          obtain ⟨w, hw, hrw⟩ := List.mem_map.mp hr₂
          subst hrw
          rw [quad_match_flat_row]
          have hne₁ : E₁ ≠ E := by
            intro he
            rw [akeys, List.map_cons] at hn
            have hmm : E₁ ∈ List.map (fun x => x.1) tl :=
              List.mem_map_of_mem (fun x => x.1) hmem
            rw [he] at hmm
            exact (List.nodup_cons.mp hn).1 hmm
          simp [hne₁]
        rw [hdead, List.append_nil]
        exact quad_filter_entities F E e f (metadata_type_name et)
          et.entities hne hent hnf hfeat
      · have hne₀ : E₀ ≠ E := fun he => hEE he.symm
        have hdead : quad_filter F E e f
            (et₀.entities.flatMap fun r =>
              r.2.features.map fun w =>
                flat_row F E₀ r.1 w.1 (metadata_type_name et₀ w.1)
                  w.2.value) = [] := by
          refine quad_filter_eq_nil ?_
          intro r hr
          obtain ⟨⟨e₁, ent₁⟩, hmem₂, hr₂⟩ := List.mem_flatMap.mp hr
          obtain ⟨w, hw, hrw⟩ := List.mem_map.mp hr₂
          subst hrw
          rw [quad_match_flat_row]
          simp [hne₀]
        rw [hdead, List.nil_append]
        have hn' : (akeys tl).Nodup := by
          rw [akeys, List.map_cons] at hn
          exact (List.nodup_cons.mp hn).2
        have het' : alookup tl E = some et := by
          rw [alookup, if_neg hne₀] at het
          exact het
        exact ih hn' het'

/-- The whole file: exactly one emitted row carries a quadruple present in a
key-unique model, and it is the canonical line for that quadruple. -/
theorem quad_filter_write_to_file (F E e f : String)
    (fss : List (String × Featurestore)) {fs : Featurestore} {et : EntityType}
    {ent : Entity} {feat : Feature}
    (hn : (akeys fss).Nodup) (hfs : alookup fss F = some fs)
    (hnE : (akeys fs.entity_types).Nodup)
    (het : alookup fs.entity_types E = some et)
    (hne : (akeys et.entities).Nodup) (hent : alookup et.entities e = some ent)
    (hnf : (akeys ent.features).Nodup)
    (hfeat : alookup ent.features f = some feat) :
    quad_filter F E e f (write_to_file fss)
      = [flat_row F E e f (metadata_type_name et f) feat.value] := by
  induction fss with
  | nil => cases hfs
  | cons hd tl ih =>
      rcases hd with ⟨F₀, fs₀⟩
      rw [write_to_file, List.flatMap_cons, quad_filter_append]
      by_cases hFF : F = F₀
      · subst hFF
        have hfs₀ : fs = fs₀ := by
          rw [alookup, if_pos rfl] at hfs
          exact (Option.some.inj hfs).symm
        subst hfs₀
        have hdead : quad_filter F E e f
            (tl.flatMap fun p => p.2.entity_types.flatMap fun q =>
              q.2.entities.flatMap fun r =>
                r.2.features.map fun w =>
                  ["featurestores", p.1, "entityTypes", q.1, "entities", r.1,
                   "features", w.1, "featureDataTypes",
                   metadata_type_name q.2 w.1, "featureValues",
                   w.2.value]) = [] := by
          refine quad_filter_eq_nil ?_
          intro r hr
          obtain ⟨⟨F₁, fs₁⟩, hmem, hr₁⟩ := List.mem_flatMap.mp hr
          obtain ⟨⟨E₁, et₁⟩, hmem₁, hr₂⟩ := List.mem_flatMap.mp hr₁
          obtain ⟨⟨e₁, ent₁⟩, hmem₂, hr₃⟩ := List.mem_flatMap.mp hr₂
          obtain ⟨w, hw, hrw⟩ := List.mem_map.mp hr₃
          subst hrw
          show quad_match F E e f (flat_row F₁ E₁ e₁ w.1 _ _) = false
          rw [quad_match_flat_row]
          have hne₁ : F₁ ≠ F := by
            intro he
            rw [akeys, List.map_cons] at hn
            have hmm : F₁ ∈ List.map (fun x => x.1) tl :=
              List.mem_map_of_mem (fun x => x.1) hmem
            rw [he] at hmm
            exact (List.nodup_cons.mp hn).1 hmm
          simp [hne₁]
        rw [hdead, List.append_nil]
        exact quad_filter_entity_types F E e f fs.entity_types hnE het hne
          hent hnf hfeat
      · have hne₀ : F₀ ≠ F := fun he => hFF he.symm
        have hdead : quad_filter F E e f
            (fs₀.entity_types.flatMap fun q =>
              q.2.entities.flatMap fun r =>
                r.2.features.map fun w =>
                  ["featurestores", F₀, "entityTypes", q.1, "entities", r.1,
                   "features", w.1, "featureDataTypes",
                   metadata_type_name q.2 w.1, "featureValues",
                   w.2.value]) = [] := by
          refine quad_filter_eq_nil ?_
          intro r hr
          obtain ⟨⟨E₁, et₁⟩, hmem₁, hr₂⟩ := List.mem_flatMap.mp hr
          obtain ⟨⟨e₁, ent₁⟩, hmem₂, hr₃⟩ := List.mem_flatMap.mp hr₂
          obtain ⟨w, hw, hrw⟩ := List.mem_map.mp hr₃
          subst hrw
          show quad_match F E e f (flat_row F₀ E₁ e₁ w.1 _ _) = false
          rw [quad_match_flat_row]
          simp [hne₀]
        rw [hdead, List.nil_append]
        have hn' : (akeys tl).Nodup := by
          rw [akeys, List.map_cons] at hn
          exact (List.nodup_cons.mp hn).2
        have hfs' : alookup tl F = some fs := by
          rw [alookup, if_neg hne₀] at hfs
          exact hfs
        exact ih hn' hfs'

/-! ### Round-trip machinery -/

/-- With unique keys, membership determines the lookup. -/
theorem alookup_of_mem_nodup {α : Type} {xs : List (String × α)} {k : String}
    {v : α} (hn : (akeys xs).Nodup) (h : (k, v) ∈ xs) :
    alookup xs k = some v := by
  induction xs with
  | nil => cases h
  | cons hd tl ih =>
      rcases hd with ⟨k₀, v₀⟩
      rcases List.mem_cons.mp h with h₀ | h₀
      · cases h₀
        rw [alookup, if_pos rfl]
      · by_cases hk : k₀ = k
        · subst hk
          rw [akeys, List.map_cons] at hn
          have : k₀ ∈ List.map (fun x => x.1) tl :=
            List.mem_map_of_mem (fun x => x.1) h₀
          exact absurd this (List.nodup_cons.mp hn).1
        · rw [alookup, if_neg hk]
          rw [akeys, List.map_cons] at hn
          exact ih (List.nodup_cons.mp hn).2 h₀

/-- The initial parse state holds no values. -/
theorem value_at_init (F E e f : String) :
    value_at {} F E e f = none := rfl

/-- A good (accepted, non-array) data-type token makes the metadata step
succeed whether or not the feature is already known. -/
theorem set_feature_metadata_good (f dt : String) (et : EntityType)
    (hg : good_type dt = true) : (set_feature_metadata f dt et).1 = true := by
  by_cases hk : (alookup et.features_metadata f).isSome
  · rw [set_feature_metadata_known dt hk]
  · have hn := alookup_eq_none_of_not_isSome hk
    unfold good_type at hg
    rcases hv : valueTypeOfName (py_upper dt) with _ | t
    · rw [hv] at hg
      cases hg
    · rw [hv] at hg
      simp at hg
      rw [set_feature_metadata_new hn hv hg]

/-- The metadata step never touches the entities mapping. -/
theorem set_feature_metadata_entities (f dt : String) (et : EntityType) :
    (set_feature_metadata f dt et).2.1.entities = et.entities := by
  by_cases hk : (alookup et.features_metadata f).isSome
  · rw [set_feature_metadata_known dt hk]
  · have hn := alookup_eq_none_of_not_isSome hk
    rcases hv : valueTypeOfName (py_upper dt) with _ | t
    · rw [set_feature_metadata_bad hn (Or.inl hv)]
    · by_cases ha : t.isArray = true
      · rw [set_feature_metadata_bad hn (Or.inr ⟨t, hv, ha⟩)]
      · rw [set_feature_metadata_new hn hv (Bool.not_eq_true _ ▸ ha)]

/-- After `_store_values`, the id map resolves the line's original
featurestore id to the line's mapped id. -/
theorem store_values_maps_self (σ : Nat → String) (s : ParseState)
    (F E e f dt v : String) :
    alookup (store_values σ s F E e f dt v).fsIdMap F
      = some (mapped_id σ s F) := by
  rw [(store_values_fsIdMap σ s F E e f dt v).1]
  unfold mapped_id
  rcases hm : alookup s.fsIdMap F with _ | m
  · rw [map_featurestore_unknown σ hm]
    exact alookup_aset_self _ _ _
  · rw [map_featurestore_known σ hm]
    exact hm

/-- `_store_values` changes no quadruple's value other than the line's
own. -/
theorem value_at_store_values_frame (σ : Nat → String) (s : ParseState)
    (F E e f dt v : String) (F' E' e' f' : String)
    (h : ¬(mapped_id σ s F = F' ∧ E = E' ∧ e = e' ∧ f = f')) :
    value_at (store_values σ s F E e f dt v) F' E' e' f'
      = value_at s F' E' e' f' := by
  by_cases hFE : F' = mapped_id σ s F ∧ E' = E
  case neg =>
    unfold value_at
    rw [entity_type_in_store_values_other σ s F E e f dt v F' E' hFE]
  case pos =>
    obtain ⟨hF, hE⟩ := hFE
    subst hF
    subst hE
    have hef : ¬(e = e' ∧ f = f') :=
      fun hp => h ⟨rfl, rfl, hp.1, hp.2⟩
    by_cases hok : (set_feature_metadata f dt
        (entity_type_in s (mapped_id σ s F) E')).1 = true
    case neg =>
      have hfail : (set_feature_metadata f dt
          (entity_type_in s (mapped_id σ s F) E')).1 = false := by
        cases hx : (set_feature_metadata f dt
            (entity_type_in s (mapped_id σ s F) E')).1
        · rfl
        · exact absurd hx hok
      unfold value_at
      rw [entity_type_in_store_values_fail σ s F E' e f dt v hfail]
    case pos =>
      unfold value_at
      rw [entity_type_in_store_values_ok σ s F E' e f dt v hok]
      show (alookup (aget (aset (set_feature_metadata f dt
          (entity_type_in s (mapped_id σ s F) E')).2.1.entities e
            { features := aset (aget (set_feature_metadata f dt
                (entity_type_in s (mapped_id σ s F) E')).2.1.entities {}
                  e).features f ⟨v⟩ }) {} e').features f').map _ = _
      rw [set_feature_metadata_entities]
      by_cases hee : e = e'
      · subst hee
        have hf : ¬f = f' := fun hff => hef ⟨rfl, hff⟩
        rw [aget_aset_self]
        show (alookup (aset (aget (entity_type_in s
            (mapped_id σ s F) E').entities {} e).features f ⟨v⟩) f').map _ = _
        rw [alookup_aset_ne _ _ hf]
      · rw [aget_aset_ne _ _ _ hee]

/-- One good row's effect on any observed quadruple value, stated through
any map `m` extending the run's id map: the row overwrites its own (mapped)
quadruple with its value and leaves every other quadruple alone. -/
theorem value_at_parse_row_track (σ : Nat → String) (s : ParseState)
    (row : List String) (hg12 : row.length = 12)
    (hgt : good_type (row.getD 9 "") = true)
    (m : List (String × String))
    (hm : ∀ k w, alookup (parse_row σ s row).fsIdMap k = some w →
      alookup m k = some w)
    (F' E' e' f' : String) :
    value_at (parse_row σ s row) F' E' e' f'
      = if alookup m (row.getD 1 "") = some F' ∧ row.getD 3 "" = E' ∧
            row.getD 5 "" = e' ∧ row.getD 7 "" = f'
        then some (row.getD 11 "")
        else value_at s F' E' e' f' := by
  have hp : parse_values row
      = some (row.getD 1 "", row.getD 3 "", row.getD 5 "", row.getD 7 "",
        row.getD 9 "", row.getD 11 "") := by
    unfold parse_values
    rw [if_pos hg12]
  have hrow : parse_row σ s row
      = store_values σ s (row.getD 1 "") (row.getD 3 "") (row.getD 5 "")
          (row.getD 7 "") (row.getD 9 "") (row.getD 11 "") := by
    unfold parse_row
    rw [hp]
  have hmF : alookup m (row.getD 1 "")
      = some (mapped_id σ s (row.getD 1 "")) := by
    refine hm _ _ ?_
    rw [hrow]
    exact store_values_maps_self σ s _ _ _ _ _ _
  rw [hrow]
  split
  case isTrue hcond =>
    obtain ⟨h1, h2, h3, h4⟩ := hcond
    have hF' : F' = mapped_id σ s (row.getD 1 "") := by
      rw [h1] at hmF
      exact Option.some.inj hmF
    rw [hF', h2, h3, h4]
    exact value_at_store_values_ok σ s _ _ _ _ _ _
      (set_feature_metadata_good _ _ _ hgt)
  case isFalse hcond =>
    refine value_at_store_values_frame σ s _ _ _ _ _ _ F' E' e' f' ?_
    rintro ⟨hA, hB, hC, hD⟩
    exact hcond ⟨hA ▸ hmF, hB, hC, hD⟩

/-- One step of the last-writer bookkeeping for an observed quadruple: a row
whose mapped featurestore id and identifier tokens match overwrites the
accumulator with its value token. -/
def track_step (m : List (String × String)) (F' E' e' f' : String)
    (acc : Option String) (row : List String) : Option String :=
  if alookup m (row.getD 1 "") = some F' ∧ row.getD 3 "" = E' ∧
      row.getD 5 "" = e' ∧ row.getD 7 "" = f'
  then some (row.getD 11 "")
  else acc

/-- The last value written to an observed quadruple by a list of rows. -/
def track_value (m : List (String × String)) (F' E' e' f' : String)
    (acc : Option String) (rows : List (List String)) : Option String :=
  rows.foldl (track_step m F' E' e' f') acc

/-- Parse characterization: over good rows, the final value at any quadruple
is the last matching row's value token (matching through the run's final id
map), or the initial value when no row matches. -/
theorem value_at_parse_from_track (σ : Nat → String)
    (rows : List (List String)) :
    ∀ s : ParseState,
      (∀ r ∈ rows, r.length = 12 ∧ good_type (r.getD 9 "") = true) →
      ∀ F' E' e' f',
        value_at (parse_from σ s rows) F' E' e' f'
          = track_value (parse_from σ s rows).fsIdMap F' E' e' f'
              (value_at s F' E' e' f') rows := by
  induction rows with
  | nil => intro s _ F' E' e' f'; rfl
  | cons r rest ih =>
      intro s h F' E' e' f'
      obtain ⟨hg12, hgt⟩ := h r (List.mem_cons_self r rest)
      have hrest := fun r' hr' => h r' (List.mem_cons_of_mem _ hr')
      have e₁ : parse_from σ s (r :: rest)
          = parse_from σ (parse_row σ s r) rest := rfl
      rw [e₁, ih (parse_row σ s r) hrest F' E' e' f']
      have e₂ : track_value (parse_from σ (parse_row σ s r) rest).fsIdMap
            F' E' e' f' (value_at s F' E' e' f') (r :: rest)
          = track_value (parse_from σ (parse_row σ s r) rest).fsIdMap
              F' E' e' f'
              (track_step (parse_from σ (parse_row σ s r) rest).fsIdMap
                F' E' e' f' (value_at s F' E' e' f') r) rest := rfl
      rw [e₂]
      congr 1
      rw [value_at_parse_row_track σ s r hg12 hgt
        (parse_from σ (parse_row σ s r) rest).fsIdMap
        (fun k w hk => fsIdMap_mono_parse_from σ rest (parse_row σ s r) hk)
        F' E' e' f']
      rfl

/-- Folding the tracker is the same as folding the unconditional overwrite
over the matching rows, when the tracker's condition coincides with the
quadruple filter on every row. -/
theorem track_value_eq_filter (m : List (String × String))
    (F' E' e' f' F E e f : String) (rows : List (List String))
    (hcond : ∀ r ∈ rows,
      ((alookup m (r.getD 1 "") = some F' ∧ r.getD 3 "" = E' ∧
          r.getD 5 "" = e' ∧ r.getD 7 "" = f')
        ↔ quad_match F E e f r = true)) :
    ∀ acc, track_value m F' E' e' f' acc rows
      = (quad_filter F E e f rows).foldl
          (fun _acc r => some (r.getD 11 "")) acc := by
  induction rows with
  | nil => intro acc; rfl
  | cons r rest ih =>
      intro acc
      have hr := hcond r (List.mem_cons_self r rest)
      have hrest := fun r' h' => hcond r' (List.mem_cons_of_mem _ h')
      show track_value m F' E' e' f' (track_step m F' E' e' f' acc r) rest = _
      unfold quad_filter
      rw [List.filter_cons]
      by_cases hq : quad_match F E e f r = true
      · rw [if_pos hq]
        have hstep : track_step m F' E' e' f' acc r
            = some (r.getD 11 "") := by
          unfold track_step
          rw [if_pos (hr.mpr hq)]
        rw [hstep]
        show track_value m F' E' e' f' (some (r.getD 11 "")) rest
          = List.foldl _ (some (r.getD 11 "")) (List.filter _ rest)
        exact ih hrest (some (r.getD 11 ""))
      · rw [if_neg hq]
        have hstep : track_step m F' E' e' f' acc r = acc := by
          unfold track_step
          rw [if_neg (fun hc => hq (hr.mp hc))]
        rw [hstep]
        exact ih hrest acc

/-- If the tracker reports a value from `acc = none`, some row matched. -/
theorem track_value_some (m : List (String × String)) (F' E' e' f' : String)
    (rows : List (List String)) :
    ∀ acc v, track_value m F' E' e' f' acc rows = some v →
      (∃ r ∈ rows, alookup m (r.getD 1 "") = some F' ∧ r.getD 3 "" = E' ∧
        r.getD 5 "" = e' ∧ r.getD 7 "" = f') ∨ acc = some v := by
  induction rows with
  | nil => intro acc v h; exact Or.inr h
  | cons r rest ih =>
      intro acc v h
      rcases ih (track_step m F' E' e' f' acc r) v h with h₀ | h₀
      · obtain ⟨r', hr', hc⟩ := h₀
        exact Or.inl ⟨r', List.mem_cons_of_mem _ hr', hc⟩
      · unfold track_step at h₀
        by_cases hc : alookup m (r.getD 1 "") = some F' ∧ r.getD 3 "" = E' ∧
            r.getD 5 "" = e' ∧ r.getD 7 "" = f'
        · exact Or.inl ⟨r, List.mem_cons_self r rest, hc⟩
        · rw [if_neg hc] at h₀
          exact Or.inr h₀

/-- Every emitted row decomposes as the canonical line of some model
quadruple. -/
theorem mem_write_to_file {fss : List (String × Featurestore)}
    {row : List String} (h : row ∈ write_to_file fss) :
    ∃ p ∈ fss, ∃ q ∈ p.2.entity_types, ∃ r ∈ q.2.entities, ∃ w ∈ r.2.features,
      row = flat_row p.1 q.1 r.1 w.1 (metadata_type_name q.2 w.1)
        w.2.value := by
  unfold write_to_file at h
  obtain ⟨p, hp, h₁⟩ := List.mem_flatMap.mp h
  obtain ⟨q, hq, h₂⟩ := List.mem_flatMap.mp h₁
  obtain ⟨r, hr, h₃⟩ := List.mem_flatMap.mp h₂
  obtain ⟨w, hw, h₄⟩ := List.mem_map.mp h₃
  exact ⟨p, hp, q, hq, r, hr, w, hw, h₄.symm⟩

/-- Inversion of a present model value into its lookup chain. -/
theorem model_value_some {fss : List (String × Featurestore)}
    {F E e f v : String} (h : model_value fss F E e f = some v) :
    ∃ fs, alookup fss F = some fs ∧
      ∃ et, alookup fs.entity_types E = some et ∧
        ∃ ent, alookup et.entities e = some ent ∧
          ∃ feat, alookup ent.features f = some feat ∧ feat.value = v := by
  unfold model_value at h
  rcases hfs : alookup fss F with _ | fs
  · rw [aget_eq_of_alookup_none _ hfs] at h
    simp [aget, alookup] at h
  rw [aget_eq_of_alookup _ hfs] at h
  rcases het : alookup fs.entity_types E with _ | et
  · rw [aget_eq_of_alookup_none _ het] at h
    simp [aget, alookup] at h
  rw [aget_eq_of_alookup _ het] at h
  rcases hent : alookup et.entities e with _ | ent
  · rw [aget_eq_of_alookup_none _ hent] at h
    simp [aget, alookup] at h
  rw [aget_eq_of_alookup _ hent] at h
  rcases hfeat : alookup ent.features f with _ | feat
  · rw [hfeat] at h
    cases h
  rw [hfeat] at h
  exact ⟨fs, rfl, et, het, ent, hent, feat, hfeat, Option.some.inj h⟩

/-- A present model quadruple's canonical line is emitted. -/
theorem write_to_file_mem_of_chain {fss : List (String × Featurestore)}
    {F E e f : String} {fs : Featurestore} {et : EntityType} {ent : Entity}
    {feat : Feature}
    (hfs : alookup fss F = some fs) (het : alookup fs.entity_types E = some et)
    (hent : alookup et.entities e = some ent)
    (hfeat : alookup ent.features f = some feat) :
    flat_row F E e f (metadata_type_name et f) feat.value
      ∈ write_to_file fss := by
  unfold write_to_file
  refine List.mem_flatMap.mpr ⟨(F, fs), mem_of_alookup hfs, ?_⟩
  refine List.mem_flatMap.mpr ⟨(E, et), mem_of_alookup het, ?_⟩
  refine List.mem_flatMap.mpr ⟨(e, ent), mem_of_alookup hent, ?_⟩
  exact List.mem_map.mpr ⟨(f, feat), mem_of_alookup hfeat, rfl⟩

/-- When a quadruple has no value in a key-unique model, no emitted row
carries it. -/
theorem quad_filter_write_to_file_nil {fss : List (String × Featurestore)}
    {F E e f : String} (hn : model_nodup fss)
    (hnone : model_value fss F E e f = none) :
    quad_filter F E e f (write_to_file fss) = [] := by
  refine quad_filter_eq_nil ?_
  intro row hrow
  obtain ⟨⟨F₀, fs₀⟩, hp, ⟨E₀, et₀⟩, hq, ⟨e₀, ent₀⟩, hr, ⟨f₀, feat₀⟩, hw,
    hform⟩ := mem_write_to_file hrow
  subst hform
  rw [quad_match_flat_row]
  by_contra hq'
  have hq'' : (F₀ == F && E₀ == E && e₀ == e && f₀ == f) = true := by
    cases hx : (F₀ == F && E₀ == E && e₀ == e && f₀ == f)
    · exact absurd hx hq'
    · rfl
  simp only [Bool.and_eq_true, beq_iff_eq] at hq''
  obtain ⟨⟨⟨hF, hE⟩, he⟩, hf⟩ := hq''
  obtain ⟨hn₁, hn₂⟩ := hn
  rw [hF] at hp
  rw [hE] at hq
  rw [he] at hr
  rw [hf] at hw
  have hfs : alookup fss F = some fs₀ := alookup_of_mem_nodup hn₁ hp
  have hnE := (hn₂ (F, fs₀) hp).1
  have het : alookup fs₀.entity_types E = some et₀ :=
    alookup_of_mem_nodup hnE hq
  have hne := ((hn₂ (F, fs₀) hp).2 (E, et₀) hq).1
  have hent : alookup et₀.entities e = some ent₀ :=
    alookup_of_mem_nodup hne hr
  have hnf := (((hn₂ (F, fs₀) hp).2 (E, et₀) hq).2 (e, ent₀) hr)
  have hfeat : alookup ent₀.features f = some feat₀ :=
    alookup_of_mem_nodup hnf hw
  unfold model_value at hnone
  rw [aget_eq_of_alookup _ hfs, aget_eq_of_alookup _ het,
    aget_eq_of_alookup _ hent, hfeat] at hnone
  cases hnone

/-- Under the scalar-types hypothesis, every emitted row is a good row. -/
theorem write_rows_good {fss : List (String × Featurestore)}
    (hs : model_scalar fss) :
    ∀ r ∈ write_to_file fss,
      r.length = 12 ∧ good_type (r.getD 9 "") = true := by
  intro row hrow
  obtain ⟨p, hp, q, hq, r, hr, w, hw, hform⟩ := mem_write_to_file hrow
  subst hform
  refine ⟨rfl, ?_⟩
  show good_type (metadata_type_name q.2 w.1) = true
  unfold metadata_type_name
  have harr := hs p hp q hq r hr w hw
  generalize (aget q.2.features_metadata {} w.1).data_type = t at harr ⊢
  revert harr
  cases t <;> decide

/-- The original featurestore id of every well-formed row of the file ends
up in the run's id map. -/
theorem parse_from_maps_row (σ : Nat → String) (rows : List (List String)) :
    ∀ s : ParseState, ∀ r ∈ rows, r.length = 12 →
      (alookup (parse_from σ s rows).fsIdMap (r.getD 1 "")).isSome := by
  induction rows with
  | nil => intro s r hr; cases hr
  | cons r₀ rest ih =>
      intro s r hr h12
      rcases List.mem_cons.mp hr with h₀ | h₀
      · subst h₀
        have hp : parse_values r
            = some (r.getD 1 "", r.getD 3 "", r.getD 5 "", r.getD 7 "",
              r.getD 9 "", r.getD 11 "") := by
          unfold parse_values
          rw [if_pos h12]
        have hrow : parse_row σ s r
            = store_values σ s (r.getD 1 "") (r.getD 3 "") (r.getD 5 "")
                (r.getD 7 "") (r.getD 9 "") (r.getD 11 "") := by
          unfold parse_row
          rw [hp]
        have hfin := fsIdMap_mono_parse_from σ rest (parse_row σ s r)
          (show alookup (parse_row σ s r).fsIdMap (r.getD 1 "")
              = some (mapped_id σ s (r.getD 1 "")) by
            rw [hrow]
            exact store_values_maps_self σ s _ _ _ _ _ _)
        show (alookup (parse_from σ (parse_row σ s r) rest).fsIdMap
          (r.getD 1 "")).isSome
        rw [hfin]
        rfl
      · exact ih (parse_row σ s r₀) r h₀ h12

/-- The spec's running example model: featurestore `fs1`, entity type `pets`
with feature `age : INT64`, entity `rex` with `age = 4`. -/
def pets_model : List (String × Featurestore) :=
  [("fs1",
    { entity_types :=
        [("pets",
          { features_metadata := [("age", ⟨.INT64⟩)],
            entities := [("rex", { features := [("age", ⟨"4"⟩)] })] })] })]

/-! ### Claims -/

/-- C10: for every 12-token input row, `_parse_values` accepts the row, and
its result depends only on the tokens at positions 1, 3, 5, 7, 9 and 11 — the
even-position label tokens are never validated and may hold any strings. -/
theorem C10_labels_not_validated (row row' : List String)
    (h : row.length = 12) (h' : row'.length = 12)
    (h1 : row.getD 1 "" = row'.getD 1 "") (h3 : row.getD 3 "" = row'.getD 3 "")
    (h5 : row.getD 5 "" = row'.getD 5 "") (h7 : row.getD 7 "" = row'.getD 7 "")
    (h9 : row.getD 9 "" = row'.getD 9 "")
    (h11 : row.getD 11 "" = row'.getD 11 "") :
    (parse_values row).isSome ∧ parse_values row = parse_values row' := by
  constructor
  · unfold parse_values
    rw [if_pos h]
    rfl
  · unfold parse_values
    rw [if_pos h, if_pos h', h1, h3, h5, h7, h9, h11]

/-- Witness for C10: the canonical labels and arbitrary junk labels parse to
the same result. -/
theorem C10_labels_not_validated_witness :
    (parse_values ["featurestores", "f", "entityTypes", "t", "entities", "e",
        "features", "h", "featureDataTypes", "int64", "featureValues",
        "5"]).isSome ∧
      parse_values ["featurestores", "f", "entityTypes", "t", "entities", "e",
          "features", "h", "featureDataTypes", "int64", "featureValues", "5"]
        = parse_values ["AAA", "f", "BBB", "t", "CCC", "e", "DDD", "h", "EEE",
          "int64", "FFF", "5"] :=
  C10_labels_not_validated _ _ (by decide) (by decide) rfl rfl rfl rfl rfl rfl

/-- C2: in the per-entity-type staging steps of `_upload_data` and
`_export_entity_type_entity_data`, the staging blob is deleted exactly once
on every exit path, and an exception raised by the staged upload, the
ingestion job, the export job or the staged-CSV decoding still propagates
after the deletion. -/
theorem C2_cleanup_guarantee (u : PyResult String)
    (i : String → PyResult Unit) (x : PyResult String)
    (d : String → PyResult Unit) (m : String) (c : String) (t : String) :
    (upload_data_step u i).deletes = 1 ∧
      (export_entity_type_step x d).deletes = 1 ∧
      (upload_data_step (.exn m) i).result = .exn m ∧
      (upload_data_step (.ok c) i).result = i c ∧
      (export_entity_type_step (.exn m) d).result = .exn m ∧
      (export_entity_type_step (.ok t) d).result = d t := by
  refine ⟨?_, ?_, rfl, ?_, rfl, ?_⟩
  · cases u with
    | exn m₀ => rfl
    | ok c₀ => rcases h : i c₀ with _ | _ <;> simp [upload_data_step, h]
  · cases x with
    | exn m₀ => rfl
    | ok t₀ => rcases h : d t₀ with _ | _ <;> simp [export_entity_type_step, h]
  · rcases h : i c with _ | _ <;> simp [upload_data_step, h]
  · rcases h : d t with _ | _ <;> simp [export_entity_type_step, h]

instance model_nodup_decidable (fss : List (String × Featurestore)) :
    Decidable (model_nodup fss) := by
  unfold model_nodup
  infer_instance

instance model_scalar_decidable (fss : List (String × Featurestore)) :
    Decidable (model_scalar fss) := by
  unfold model_scalar
  infer_instance

instance map_inj_decidable (m : List (String × String)) :
    Decidable (map_inj m) := by
  unfold map_inj
  infer_instance

/-- Counterexample to C1 as stated: encoding the example model and decoding
it back does not yield identical (featurestore, entity-type, entity,
feature)→value content, order-insensitively or otherwise — the decoded model
holds the value under the remapped featurestore identifier `fs1_x`, and holds
nothing under the original identifier `fs1`. -/
theorem C1_roundtrip_counterexample :
    model_value pets_model "fs1" "pets" "rex" "age" = some "4" ∧
      value_at
          (parse_schema_and_data (fun _ => "x") (write_to_file pets_model))
          "fs1" "pets" "rex" "age" = none ∧
      value_at
          (parse_schema_and_data (fun _ => "x") (write_to_file pets_model))
          "fs1_x" "pets" "rex" "age" = some "4" := by
  decide

/-- C1 (amended): for a key-unique model whose features all carry non-array
types, and a run whose collision-avoidance map is injective, round-tripping
through the flat file preserves the (featurestore, entity-type, entity,
feature)→value content exactly up to the per-run featurestore remapping:
(1) under each remapped id, the decoded values coincide pointwise with the
original values under the original id; (2) every original quadruple survives
under its remapped featurestore id; (3) every decoded value comes from an
original quadruple through the remapping. -/
theorem C1_roundtrip_amended (σ : Nat → String)
    (fss : List (String × Featurestore)) (hn : model_nodup fss)
    (hs : model_scalar fss)
    (hinj : map_inj
      (parse_schema_and_data σ (write_to_file fss)).fsIdMap) :
    (∀ F F',
        alookup (parse_schema_and_data σ (write_to_file fss)).fsIdMap F
          = some F' →
        ∀ E e f,
          value_at (parse_schema_and_data σ (write_to_file fss)) F' E e f
            = model_value fss F E e f) ∧
      (∀ F E e f v, model_value fss F E e f = some v →
        ∃ F',
          alookup (parse_schema_and_data σ (write_to_file fss)).fsIdMap F
              = some F' ∧
            value_at (parse_schema_and_data σ (write_to_file fss)) F' E e f
              = some v) ∧
      (∀ F' E e f v,
        value_at (parse_schema_and_data σ (write_to_file fss)) F' E e f
            = some v →
        ∃ F,
          alookup (parse_schema_and_data σ (write_to_file fss)).fsIdMap F
              = some F' ∧ model_value fss F E e f = some v) := by
  have hgood := write_rows_good hs
  have htrack : ∀ F' E e f,
      value_at (parse_schema_and_data σ (write_to_file fss)) F' E e f
        = track_value
            (parse_schema_and_data σ (write_to_file fss)).fsIdMap F' E e f
            none (write_to_file fss) :=
    fun F' E e f =>
      value_at_parse_from_track σ (write_to_file fss) {} hgood F' E e f
  have key : ∀ F F',
      alookup (parse_schema_and_data σ (write_to_file fss)).fsIdMap F
        = some F' →
      ∀ E e f,
        value_at (parse_schema_and_data σ (write_to_file fss)) F' E e f
          = model_value fss F E e f := by
    intro F F' hF E e f
    have hcond : ∀ r ∈ write_to_file fss,
        ((alookup
            (parse_schema_and_data σ (write_to_file fss)).fsIdMap
              (r.getD 1 "") = some F' ∧
          r.getD 3 "" = E ∧ r.getD 5 "" = e ∧ r.getD 7 "" = f)
          ↔ quad_match F E e f r = true) := by
      intro row hrow
      obtain ⟨p, hp, q, hq, r, hr, w, hw, hform⟩ := mem_write_to_file hrow
      subst hform
      rw [quad_match_flat_row]
      constructor
      · rintro ⟨h1, h2, h3, h4⟩
        have hpf : p.1 = F :=
          hinj (p.1, F') (mem_of_alookup h1) (F, F') (mem_of_alookup hF) rfl
        have h2' : q.1 = E := h2
        have h3' : r.1 = e := h3
        have h4' : w.1 = f := h4
        simp [hpf, h2', h3', h4']
      · intro hqm
        simp only [Bool.and_eq_true, beq_iff_eq] at hqm
        obtain ⟨⟨⟨h1, h2⟩, h3⟩, h4⟩ := hqm
        refine ⟨?_, h2, h3, h4⟩
        show alookup
          (parse_schema_and_data σ (write_to_file fss)).fsIdMap p.1 = some F'
        rw [h1]
        exact hF
    rw [htrack F' E e f,
      track_value_eq_filter _ F' E e f F E e f (write_to_file fss) hcond none]
    rcases hmv : model_value fss F E e f with _ | v
    · rw [quad_filter_write_to_file_nil hn hmv]
      rfl
    · obtain ⟨fs, hfs, et, het, ent, hent, feat, hfeat, hval⟩ :=
        model_value_some hmv
      have hp := mem_of_alookup hfs
      have hnE := (hn.2 (F, fs) hp).1
      have hq := mem_of_alookup het
      have hne := ((hn.2 (F, fs) hp).2 (E, et) hq).1
      have hr := mem_of_alookup hent
      have hnf := ((hn.2 (F, fs) hp).2 (E, et) hq).2 (e, ent) hr
      rw [quad_filter_write_to_file F E e f fss hn.1 hfs hnE het hne hent hnf
        hfeat]
      exact congrArg some hval
  refine ⟨key, ?_, ?_⟩
  · intro F E e f v hmv
    obtain ⟨fs, hfs, et, het, ent, hent, feat, hfeat, hval⟩ :=
      model_value_some hmv
    have hmem := write_to_file_mem_of_chain hfs het hent hfeat
    have hsome : (alookup
        (parse_schema_and_data σ (write_to_file fss)).fsIdMap F).isSome :=
      parse_from_maps_row σ (write_to_file fss) {} _ hmem rfl
    rcases hx : alookup
        (parse_schema_and_data σ (write_to_file fss)).fsIdMap F with _ | F'
    · rw [hx] at hsome
      simp at hsome
    · exact ⟨F', rfl, (key F F' hx E e f).trans hmv⟩
  · intro F' E e f v hv
    have hv₀ := hv
    rw [htrack F' E e f] at hv
    rcases track_value_some
        (parse_schema_and_data σ (write_to_file fss)).fsIdMap F' E e f
        (write_to_file fss) none v hv with h₀ | h₀
    · obtain ⟨row, hrow, hc⟩ := h₀
      obtain ⟨p, hp, q, hq, r, hr, w, hw, hform⟩ := mem_write_to_file hrow
      subst hform
      refine ⟨p.1, hc.1, ?_⟩
      rw [← key p.1 F' hc.1 E e f]
      exact hv₀
    · cases h₀

/-- Witness for C1 (amended): the example model round-trips onto the
remapped featurestore id `fs1_x`, value for value. -/
theorem C1_roundtrip_amended_witness :
    value_at (parse_schema_and_data (fun _ => "x") (write_to_file pets_model))
        "fs1_x" "pets" "rex" "age"
      = model_value pets_model "fs1" "pets" "rex" "age" :=
  (C1_roundtrip_amended (fun _ => "x") pets_model (by decide) (by decide)
    (by decide)).1 "fs1" "fs1_x" (by decide) "pets" "rex" "age"

/-- C3: type inference is first-write-wins and values are last-write-wins:
(i) once a feature's metadata is recorded, a later line succeeds without
changing it, whatever its data-type token; (ii) recorded metadata survives
every subsequent row of the run; (iii) the metadata recorded on first sight
is exactly the case-normalized type of the recording line's token; (iv) a
successful line always overwrites the entity's feature value. -/
theorem C3_first_write_wins_metadata (σ : Nat → String) (s : ParseState)
    (row : List String) (F E e f dt v : String) (t : ValueType) :
    ((alookup
        (entity_type_in s (mapped_id σ s F) E).features_metadata f).isSome →
      set_feature_metadata f dt (entity_type_in s (mapped_id σ s F) E)
        = (true, entity_type_in s (mapped_id σ s F) E, 0)) ∧
      (metadata_at s F E f = some t →
        metadata_at (parse_row σ s row) F E f = some t) ∧
      (alookup
          (entity_type_in s (mapped_id σ s F) E).features_metadata f = none →
        valueTypeOfName (py_upper dt) = some t → t.isArray = false →
        metadata_at (store_values σ s F E e f dt v) (mapped_id σ s F) E f
          = some t) ∧
      ((set_feature_metadata f dt
          (entity_type_in s (mapped_id σ s F) E)).1 = true →
        value_at (store_values σ s F E e f dt v) (mapped_id σ s F) E e f
          = some v) := by
  refine ⟨fun hk => set_feature_metadata_known dt hk,
    fun h => metadata_at_parse_row_mono σ s row h, ?_,
    fun hok => value_at_store_values_ok σ s F E e f dt v hok⟩
  intro hn ht ha
  have hset := set_feature_metadata_new hn ht ha
  have hok : (set_feature_metadata f dt
      (entity_type_in s (mapped_id σ s F) E)).1 = true := by rw [hset]
  unfold metadata_at
  rw [entity_type_in_store_values_ok σ s F E e f dt v hok]
  show (alookup (set_feature_metadata f dt
      (entity_type_in s (mapped_id σ s F) E)).2.1.features_metadata f).map _
    = some t
  rw [hset]
  show (alookup (aset
      (entity_type_in s (mapped_id σ s F) E).features_metadata f ⟨t⟩) f).map _
    = some t
  rw [alookup_aset_self]
  rfl

/-- Witness for C3: with `h : INT64` recorded by a first line, a later line
with token `bool` leaves the metadata at INT64 but overwrites the value. -/
theorem C3_first_write_wins_witness :
    metadata_at
        (parse_row (fun _ => "x")
          (parse_from (fun _ => "x") {}
            [["featurestores", "f", "entityTypes", "t", "entities", "e",
              "features", "h", "featureDataTypes", "int64", "featureValues",
              "1"]])
          ["featurestores", "f", "entityTypes", "t", "entities", "e",
           "features", "h", "featureDataTypes", "bool", "featureValues", "2"])
        "f_x" "t" "h" = some .INT64 ∧
      metadata_at
          (store_values (fun _ => "x") {} "f" "t" "e" "h" "int64" "1")
          (mapped_id (fun _ => "x") {} "f") "t" "h" = some .INT64 ∧
      value_at
          (store_values (fun _ => "x")
            (parse_from (fun _ => "x") {}
              [["featurestores", "f", "entityTypes", "t", "entities", "e",
                "features", "h", "featureDataTypes", "int64", "featureValues",
                "1"]])
            "f" "t" "e" "h" "bool" "2")
          (mapped_id (fun _ => "x")
            (parse_from (fun _ => "x") {}
              [["featurestores", "f", "entityTypes", "t", "entities", "e",
                "features", "h", "featureDataTypes", "int64", "featureValues",
                "1"]])
            "f") "t" "e" "h" = some "2" :=
  have s₁ := parse_from (fun _ => "x") {}
    [["featurestores", "f", "entityTypes", "t", "entities", "e", "features",
      "h", "featureDataTypes", "int64", "featureValues", "1"]]
  ⟨(C3_first_write_wins_metadata (fun _ => "x")
      (parse_from (fun _ => "x") {}
        [["featurestores", "f", "entityTypes", "t", "entities", "e",
          "features", "h", "featureDataTypes", "int64", "featureValues",
          "1"]])
      ["featurestores", "f", "entityTypes", "t", "entities", "e", "features",
       "h", "featureDataTypes", "bool", "featureValues", "2"]
      "f_x" "t" "e" "h" "bool" "2" .INT64).2.1 (by decide),
    (C3_first_write_wins_metadata (fun _ => "x") {} [] "f" "t" "e" "h"
      "int64" "1" .INT64).2.2.1 (by decide) (by decide) (by decide),
    (C3_first_write_wins_metadata (fun _ => "x")
      (parse_from (fun _ => "x") {}
        [["featurestores", "f", "entityTypes", "t", "entities", "e",
          "features", "h", "featureDataTypes", "int64", "featureValues",
          "1"]])
      [] "f" "t" "e" "h" "bool" "2" .INT64).2.2.2 (by decide)⟩

/-- C4: a row whose token count differs from 12 is skipped with exactly one
warning — its step changes nothing but the warning counter — and a full parse
with such a row inserted anywhere yields the same featurestores, id map and
suffix counter as the parse without it, with exactly one extra warning: the
row aborts nothing. -/
theorem C4_malformed_line_resilience (σ : Nat → String) (s : ParseState)
    (r : List String) (pre post : List (List String)) (h : r.length ≠ 12) :
    parse_row σ s r = { s with warnings := s.warnings + 1 } ∧
      (parse_from σ s (pre ++ r :: post)).featurestores
        = (parse_from σ s (pre ++ post)).featurestores ∧
      (parse_from σ s (pre ++ r :: post)).fsIdMap
        = (parse_from σ s (pre ++ post)).fsIdMap ∧
      (parse_from σ s (pre ++ r :: post)).ctr
        = (parse_from σ s (pre ++ post)).ctr ∧
      (parse_from σ s (pre ++ r :: post)).warnings
        = (parse_from σ s (pre ++ post)).warnings + 1 := by
  refine ⟨parse_row_malformed σ s h, ?_⟩
  have e₁ : parse_from σ s (pre ++ r :: post)
      = parse_from σ (parse_row σ (parse_from σ s pre) r) post := by
    unfold parse_from
    rw [List.foldl_append]
    rfl
  have e₂ : parse_from σ s (pre ++ post)
      = parse_from σ (parse_from σ s pre) post := by
    unfold parse_from
    rw [List.foldl_append]
  rw [e₁, e₂, parse_row_malformed σ (parse_from σ s pre) h]
  obtain ⟨g₁, g₂, g₃, g₄⟩ :=
    parse_from_set_warnings σ post (parse_from σ s pre)
      ((parse_from σ s pre).warnings + 1)
  exact ⟨g₁, g₂, g₃, by omega⟩

/-- Witness for C4: a 2-token row between two well-formed rows is skipped
with one warning and does not disturb the parse of its neighbors. -/
theorem C4_malformed_line_witness :
    parse_row (fun _ => "x") {} ["a", "b"]
        = { ParseState.mk [] [] 0 0 with warnings := 0 + 1 } ∧
      (parse_from (fun _ => "x") {}
          ([["featurestores", "f", "entityTypes", "t", "entities", "e",
             "features", "h", "featureDataTypes", "int64", "featureValues",
             "1"]] ++ ["a", "b"] ::
            [["featurestores", "f", "entityTypes", "t", "entities", "e",
              "features", "g", "featureDataTypes", "bool", "featureValues",
              "2"]])).featurestores
        = (parse_from (fun _ => "x") {}
            ([["featurestores", "f", "entityTypes", "t", "entities", "e",
               "features", "h", "featureDataTypes", "int64", "featureValues",
               "1"]] ++
              [["featurestores", "f", "entityTypes", "t", "entities", "e",
                "features", "g", "featureDataTypes", "bool", "featureValues",
                "2"]])).featurestores ∧
      (parse_from (fun _ => "x") {}
          ([["featurestores", "f", "entityTypes", "t", "entities", "e",
             "features", "h", "featureDataTypes", "int64", "featureValues",
             "1"]] ++ ["a", "b"] ::
            [["featurestores", "f", "entityTypes", "t", "entities", "e",
              "features", "g", "featureDataTypes", "bool", "featureValues",
              "2"]])).fsIdMap
        = (parse_from (fun _ => "x") {}
            ([["featurestores", "f", "entityTypes", "t", "entities", "e",
               "features", "h", "featureDataTypes", "int64", "featureValues",
               "1"]] ++
              [["featurestores", "f", "entityTypes", "t", "entities", "e",
                "features", "g", "featureDataTypes", "bool", "featureValues",
                "2"]])).fsIdMap ∧
      (parse_from (fun _ => "x") {}
          ([["featurestores", "f", "entityTypes", "t", "entities", "e",
             "features", "h", "featureDataTypes", "int64", "featureValues",
             "1"]] ++ ["a", "b"] ::
            [["featurestores", "f", "entityTypes", "t", "entities", "e",
              "features", "g", "featureDataTypes", "bool", "featureValues",
              "2"]])).ctr
        = (parse_from (fun _ => "x") {}
            ([["featurestores", "f", "entityTypes", "t", "entities", "e",
               "features", "h", "featureDataTypes", "int64", "featureValues",
               "1"]] ++
              [["featurestores", "f", "entityTypes", "t", "entities", "e",
                "features", "g", "featureDataTypes", "bool", "featureValues",
                "2"]])).ctr ∧
      (parse_from (fun _ => "x") {}
          ([["featurestores", "f", "entityTypes", "t", "entities", "e",
             "features", "h", "featureDataTypes", "int64", "featureValues",
             "1"]] ++ ["a", "b"] ::
            [["featurestores", "f", "entityTypes", "t", "entities", "e",
              "features", "g", "featureDataTypes", "bool", "featureValues",
              "2"]])).warnings
        = (parse_from (fun _ => "x") {}
            ([["featurestores", "f", "entityTypes", "t", "entities", "e",
               "features", "h", "featureDataTypes", "int64", "featureValues",
               "1"]] ++
              [["featurestores", "f", "entityTypes", "t", "entities", "e",
                "features", "g", "featureDataTypes", "bool", "featureValues",
                "2"]])).warnings + 1 :=
  C4_malformed_line_resilience (fun _ => "x") {} ["a", "b"]
    [["featurestores", "f", "entityTypes", "t", "entities", "e", "features",
      "h", "featureDataTypes", "int64", "featureValues", "1"]]
    [["featurestores", "f", "entityTypes", "t", "entities", "e", "features",
      "g", "featureDataTypes", "bool", "featureValues", "2"]]
    (by decide)

/-- C5: a line whose case-normalized data-type token names an array type —
or is unrecognized — for a feature with no recorded metadata is rejected:
the metadata step fails with one warning, the line's entity type (hence every
other feature of it) is left exactly as it was, no metadata is recorded for
the feature, and the line's value is not stored. -/
theorem C5_array_type_rejection (σ : Nat → String) (s : ParseState)
    (F E e f dt v : String)
    (hunknown : alookup
      (entity_type_in s (mapped_id σ s F) E).features_metadata f = none)
    (hbad : (∃ t, valueTypeOfName (py_upper dt) = some t ∧ t.isArray = true) ∨
      valueTypeOfName (py_upper dt) = none) :
    set_feature_metadata f dt (entity_type_in s (mapped_id σ s F) E)
        = (false, entity_type_in s (mapped_id σ s F) E, 1) ∧
      entity_type_in (store_values σ s F E e f dt v) (mapped_id σ s F) E
        = entity_type_in s (mapped_id σ s F) E ∧
      metadata_at (store_values σ s F E e f dt v) (mapped_id σ s F) E f
        = none ∧
      value_at (store_values σ s F E e f dt v) (mapped_id σ s F) E e f
        = value_at s (mapped_id σ s F) E e f ∧
      (store_values σ s F E e f dt v).warnings = s.warnings + 1 := by
  have hset := set_feature_metadata_bad hunknown hbad.symm
  have hfail : (set_feature_metadata f dt
      (entity_type_in s (mapped_id σ s F) E)).1 = false := by rw [hset]
  have het := entity_type_in_store_values_fail σ s F E e f dt v hfail
  refine ⟨hset, het, ?_, ?_, ?_⟩
  · unfold metadata_at
    rw [het, hunknown]
    rfl
  · unfold value_at
    rw [het]
  · rw [store_values_warnings, hset]

/-- Witness for C5: a line declaring feature `arr` with type `int64_array`
in a fresh state is dropped: no metadata, no value, one warning. -/
theorem C5_array_type_rejection_witness :
    valueTypeOfName (py_upper "int64_array") = some .INT64_ARRAY ∧
      metadata_at
          (store_values (fun _ => "x") {} "f" "t" "e" "arr" "int64_array" "7")
          (mapped_id (fun _ => "x") {} "f") "t" "arr" = none ∧
      value_at
          (store_values (fun _ => "x") {} "f" "t" "e" "arr" "int64_array" "7")
          (mapped_id (fun _ => "x") {} "f") "t" "e" "arr"
        = value_at {} (mapped_id (fun _ => "x") {} "f") "t" "e" "arr" ∧
      (store_values (fun _ => "x") {} "f" "t" "e" "arr" "int64_array"
          "7").warnings = ParseState.warnings {} + 1 :=
  have h := C5_array_type_rejection (fun _ => "x") {} "f" "t" "e" "arr"
    "int64_array" "7" (by decide)
    (Or.inl ⟨.INT64_ARRAY, by decide, by decide⟩)
  ⟨by decide, h.2.2.1, h.2.2.2.1, h.2.2.2.2⟩

/-- C6: a 12-token line whose data-type token is empty succeeds when the
feature's metadata is already recorded (value stored, metadata untouched, no
warning), and is dropped with one warning — no metadata, no value — when the
feature was never seen. -/
theorem C6_empty_type_token (σ : Nat → String) (s : ParseState)
    (F E e f v : String) :
    ((alookup
        (entity_type_in s (mapped_id σ s F) E).features_metadata f).isSome →
      set_feature_metadata f "" (entity_type_in s (mapped_id σ s F) E)
          = (true, entity_type_in s (mapped_id σ s F) E, 0) ∧
        metadata_at (store_values σ s F E e f "" v) (mapped_id σ s F) E f
          = metadata_at s (mapped_id σ s F) E f ∧
        value_at (store_values σ s F E e f "" v) (mapped_id σ s F) E e f
          = some v ∧
        (store_values σ s F E e f "" v).warnings = s.warnings) ∧
      (alookup
          (entity_type_in s (mapped_id σ s F) E).features_metadata f = none →
        set_feature_metadata f "" (entity_type_in s (mapped_id σ s F) E)
            = (false, entity_type_in s (mapped_id σ s F) E, 1) ∧
          entity_type_in (store_values σ s F E e f "" v) (mapped_id σ s F) E
            = entity_type_in s (mapped_id σ s F) E ∧
          metadata_at (store_values σ s F E e f "" v) (mapped_id σ s F) E f
            = none ∧
          value_at (store_values σ s F E e f "" v) (mapped_id σ s F) E e f
            = value_at s (mapped_id σ s F) E e f ∧
          (store_values σ s F E e f "" v).warnings = s.warnings + 1) := by
  constructor
  · intro hk
    have hset := set_feature_metadata_known "" hk
    have hok : (set_feature_metadata f ""
        (entity_type_in s (mapped_id σ s F) E)).1 = true := by rw [hset]
    refine ⟨hset, ?_, value_at_store_values_ok σ s F E e f "" v hok, ?_⟩
    · unfold metadata_at
      rw [entity_type_in_store_values_ok σ s F E e f "" v hok, hset]
    · rw [store_values_warnings, hset]
      rfl
  · intro hn
    have hset := set_feature_metadata_bad hn
      (Or.inl (show valueTypeOfName (py_upper "") = none from by decide))
    have hfail : (set_feature_metadata f ""
        (entity_type_in s (mapped_id σ s F) E)).1 = false := by rw [hset]
    have het := entity_type_in_store_values_fail σ s F E e f "" v hfail
    refine ⟨hset, het, ?_, ?_, ?_⟩
    · unfold metadata_at
      rw [het, hn]
      rfl
    · unfold value_at
      rw [het]
    · rw [store_values_warnings, hset]

/-- Witness for C6: with `height : INT64` already recorded, an empty-token
line stores its value and keeps the metadata; in a fresh state the same line
is dropped with one warning. -/
theorem C6_empty_type_token_witness :
    (metadata_at
        (store_values (fun _ => "x")
          ⟨[("f_x", ⟨[("t", ⟨[("height", ⟨.INT64⟩)], []⟩)]⟩)],
           [("f", "f_x")], 1, 0⟩
          "f" "t" "e2" "height" "" "6")
        (mapped_id (fun _ => "x")
          ⟨[("f_x", ⟨[("t", ⟨[("height", ⟨.INT64⟩)], []⟩)]⟩)],
           [("f", "f_x")], 1, 0⟩ "f") "t" "height"
      = metadata_at
          ⟨[("f_x", ⟨[("t", ⟨[("height", ⟨.INT64⟩)], []⟩)]⟩)],
           [("f", "f_x")], 1, 0⟩
          (mapped_id (fun _ => "x")
            ⟨[("f_x", ⟨[("t", ⟨[("height", ⟨.INT64⟩)], []⟩)]⟩)],
             [("f", "f_x")], 1, 0⟩ "f") "t" "height" ∧
      value_at
          (store_values (fun _ => "x")
            ⟨[("f_x", ⟨[("t", ⟨[("height", ⟨.INT64⟩)], []⟩)]⟩)],
             [("f", "f_x")], 1, 0⟩
            "f" "t" "e2" "height" "" "6")
          (mapped_id (fun _ => "x")
            ⟨[("f_x", ⟨[("t", ⟨[("height", ⟨.INT64⟩)], []⟩)]⟩)],
             [("f", "f_x")], 1, 0⟩ "f") "t" "e2" "height" = some "6") ∧
      metadata_at (store_values (fun _ => "x") {} "g" "u" "e" "w" "" "9")
          (mapped_id (fun _ => "x") {} "g") "u" "w" = none ∧
      (store_values (fun _ => "x") {} "g" "u" "e" "w" "" "9").warnings
        = ParseState.warnings {} + 1 :=
  have h₁ := (C6_empty_type_token (fun _ => "x")
    ⟨[("f_x", ⟨[("t", ⟨[("height", ⟨.INT64⟩)], []⟩)]⟩)], [("f", "f_x")], 1, 0⟩
    "f" "t" "e2" "height" "6").1 (by decide)
  have h₂ := (C6_empty_type_token (fun _ => "x") {} "g" "u" "e" "w" "9").2
    (by decide)
  ⟨⟨h₁.2.1, h₁.2.2.1⟩, h₂.2.2.1, h₂.2.2.2.2⟩

/-- C8: featurestore remapping is deterministic collision avoidance:
(a) every remapped identifier a run records is the original followed by `_`
and a drawn suffix; (b) an already-mapped identifier is reused as is, with no
state change; (c) a first reference generates `F ++ "_" ++ suffix` from the
next draw; (d) a recorded mapping survives every later row, so all later
lines reuse exactly it; (e) two runs over the same file whose suffix draws
never coincide remap the same original identifier to distinct identifiers —
never a merge. -/
theorem C8_deterministic_remapping (σ σ₁ σ₂ : Nat → String)
    (s s' : ParseState) (rows : List (List String)) (F m m₁ m₂ : String) :
    (alookup (parse_schema_and_data σ rows).fsIdMap F = some m →
        ∃ k, m = F ++ "_" ++ σ k) ∧
      (alookup s.fsIdMap F = some m → map_featurestore σ s F = (m, s)) ∧
      (alookup s'.fsIdMap F = none →
        map_featurestore σ s' F
          = (F ++ "_" ++ σ s'.ctr,
             { s' with fsIdMap := aset s'.fsIdMap F (F ++ "_" ++ σ s'.ctr),
                       ctr := s'.ctr + 1 })) ∧
      (alookup s.fsIdMap F = some m → ∀ row,
        alookup (parse_row σ s row).fsIdMap F = some m) ∧
      ((∀ i j, σ₁ i ≠ σ₂ j) →
        alookup (parse_schema_and_data σ₁ rows).fsIdMap F = some m₁ →
        alookup (parse_schema_and_data σ₂ rows).fsIdMap F = some m₂ →
        m₁ ≠ m₂) := by
  have shape : ∀ (τ : Nat → String),
      alookup (parse_schema_and_data τ rows).fsIdMap F = some m →
        ∃ k, m = F ++ "_" ++ τ k := by
    intro τ h
    have hmem := mem_of_alookup h
    have hs := parse_from_fsIdMap_shape τ rows {}
      (by intro p hp; cases hp) (F, m) hmem
    simpa using hs
  refine ⟨shape σ, fun h => map_featurestore_known σ h,
    fun h => map_featurestore_unknown σ h,
    fun h row => fsIdMap_mono_parse_row σ s row h, ?_⟩
  intro hdis h₁ h₂ he
  have sh : ∀ (τ : Nat → String) {mm : String},
      alookup (parse_schema_and_data τ rows).fsIdMap F = some mm →
        ∃ k, mm = F ++ "_" ++ τ k := by
    intro τ mm h
    have hmem := mem_of_alookup h
    have hs := parse_from_fsIdMap_shape τ rows {}
      (by intro p hp; cases hp) (F, mm) hmem
    simpa using hs
  obtain ⟨k₁, hk₁⟩ := sh σ₁ h₁
  obtain ⟨k₂, hk₂⟩ := sh σ₂ h₂
  rw [hk₁, hk₂] at he
  exact hdis k₁ k₂ (string_append_left_cancel he)

/-- Witness for C8: with `f` mapped to `f_x`, the mapping is reused and
survives a later row; a fresh reference generates from the next draw; and
runs drawing `x` versus `y` remap `f` differently. -/
theorem C8_deterministic_remapping_witness :
    (∃ k, "f_x" = "f" ++ "_" ++ (fun _ : Nat => "x") k) ∧
      map_featurestore (fun _ => "x")
          ⟨[], [("f", "f_x")], 1, 0⟩ "f" = ("f_x", ⟨[], [("f", "f_x")], 1, 0⟩) ∧
      map_featurestore (fun _ => "x") {} "f" = ("f_x", ⟨[], [("f", "f_x")], 1, 0⟩) ∧
      alookup
          (parse_row (fun _ => "x") ⟨[], [("f", "f_x")], 1, 0⟩
            ["featurestores", "f", "entityTypes", "t", "entities", "e",
             "features", "h", "featureDataTypes", "int64", "featureValues",
             "1"]).fsIdMap "f" = some "f_x" ∧
      ("f_x" : String) ≠ "f_y" :=
  have h := C8_deterministic_remapping (fun _ => "x") (fun _ => "x")
    (fun _ => "y") ⟨[], [("f", "f_x")], 1, 0⟩ {}
    [["featurestores", "f", "entityTypes", "t", "entities", "e", "features",
      "h", "featureDataTypes", "int64", "featureValues", "1"]]
    "f" "f_x" "f_x" "f_y"
  ⟨h.1 (by decide), h.2.1 (by decide), (h.2.2.1 (by decide)).trans (by decide),
    h.2.2.2.1 (by decide)
      ["featurestores", "f", "entityTypes", "t", "entities", "e", "features",
       "h", "featureDataTypes", "int64", "featureValues", "1"],
    h.2.2.2.2 (fun i j => by decide) (by decide) (by decide)⟩

/-- C9: the flat-file encoding: every emitted row has 12 tokens with the six
fixed labels at the even positions; a quadruple present in a key-unique
model is emitted exactly once, as the canonical line carrying the recorded
(uppercase canonical name) data type and the value; and the spec's example
model renders to exactly the example line. -/
theorem C9_flat_file_encoding (fss : List (String × Featurestore))
    (F E e f : String) {fs : Featurestore} {et : EntityType} {ent : Entity}
    {feat : Feature}
    (hn : (akeys fss).Nodup) (hfs : alookup fss F = some fs)
    (hnE : (akeys fs.entity_types).Nodup)
    (het : alookup fs.entity_types E = some et)
    (hne : (akeys et.entities).Nodup) (hent : alookup et.entities e = some ent)
    (hnf : (akeys ent.features).Nodup)
    (hfeat : alookup ent.features f = some feat) :
    (∀ row ∈ write_to_file fss, row.length = 12 ∧
        row.getD 0 "" = "featurestores" ∧ row.getD 2 "" = "entityTypes" ∧
        row.getD 4 "" = "entities" ∧ row.getD 6 "" = "features" ∧
        row.getD 8 "" = "featureDataTypes" ∧
        row.getD 10 "" = "featureValues") ∧
      quad_filter F E e f (write_to_file fss)
        = [flat_row F E e f (metadata_type_name et f) feat.value] ∧
      (write_to_file pets_model).map render_row
        = ["featurestores/fs1/entityTypes/pets/entities/rex/features/age/featureDataTypes/INT64/featureValues/4"] := by
  refine ⟨?_, quad_filter_write_to_file F E e f fss hn hfs hnE het hne hent
    hnf hfeat, by decide⟩
  intro row hrow
  obtain ⟨p, hp, q, hq, r, hr, w, hw, hform⟩ := mem_write_to_file hrow
  subst hform
  exact ⟨rfl, rfl, rfl, rfl, rfl, rfl, rfl⟩

/-- Witness for C9: the example model's unique `(fs1, pets, rex, age)` line
is the example line, labels included. -/
theorem C9_flat_file_encoding_witness :
    quad_filter "fs1" "pets" "rex" "age" (write_to_file pets_model)
        = [["featurestores", "fs1", "entityTypes", "pets", "entities", "rex",
            "features", "age", "featureDataTypes", "INT64", "featureValues",
            "4"]] ∧
      (write_to_file pets_model).map render_row
        = ["featurestores/fs1/entityTypes/pets/entities/rex/features/age/featureDataTypes/INT64/featureValues/4"] :=
  have h := @C9_flat_file_encoding pets_model "fs1" "pets" "rex" "age"
    ⟨[("pets", ⟨[("age", ⟨.INT64⟩)], [("rex", ⟨[("age", ⟨"4"⟩)]⟩)]⟩)]⟩
    ⟨[("age", ⟨.INT64⟩)], [("rex", ⟨[("age", ⟨"4"⟩)]⟩)]⟩
    ⟨[("age", ⟨"4"⟩)]⟩ ⟨"4"⟩
    (by decide) (by decide) (by decide) (by decide) (by decide) (by decide)
    (by decide) (by decide)
  ⟨h.2.1.trans (by decide), h.2.2⟩

/-- C7: an empty input file, or one in which every line is malformed, parses
to an empty featurestores dict and `execute` issues no remote interaction at
all — no client construction, no schema creation, no upload. -/
theorem C7_noop_on_empty_input (σ : Nat → String) (rows : List (List String))
    (h : rows = [] ∨ ∀ r ∈ rows, r.length ≠ 12) :
    (parse_schema_and_data σ rows).featurestores = [] ∧
      execute σ rows = [] := by
  have hempty : (parse_schema_and_data σ rows).featurestores = [] := by
    rcases h with h | h
    · subst h; rfl
    · exact parse_from_malformed_featurestores σ rows {} h
  refine ⟨hempty, ?_⟩
  unfold execute
  simp [hempty]

/-- Witness for C7: a one-line file whose only row has two tokens triggers no
remote interaction. -/
theorem C7_noop_witness :
    (parse_schema_and_data (fun _ => "x") [["a", "b"]]).featurestores = [] ∧
      execute (fun _ => "x") [["a", "b"]] = [] :=
  C7_noop_on_empty_input (fun _ => "x") [["a", "b"]]
    (Or.inr (by decide))

end FsTool
